import Mathlib

/-!
Verification of the core text-extraction and normalization engine of the
device-inventory snapshot collector (`network-discovery.py`).

The embedding works on `List Char` (Python `str`).  Python's `re` patterns used
by the program are embedded either directly (the three anchored port patterns,
whose character classes are pairwise disjoint, so greedy matching is maximal
munch) or through a small backtracking matcher (`mtch`) that mirrors the
backtracking priority order of Python's engine for the fixed patterns the
program compiles.  Fallible Python code (code that can raise `ValueError`)
returns `Except Unit`.  The external collaborators (netmiko sessions, the
vendor-lookup HTTP call, the CSV/SQLite/Excel stores) are passed in as explicit
values: raw command text as `List Char` arguments, the HTTP lookup as an
`Option`-valued oracle, and the persisted OUI cache as a list of rows.
-/

/-- ASCII lower-casing of one character, as Python `str.lower` acts on the
ASCII range (the program only lowercases hex digits, interface names and the
token `never`). -/
def lowerChar (c : Char) : Char :=
  if 'A' ≤ c ∧ c ≤ 'Z' then Char.ofNat (c.toNat + 32) else c

/-- Python `str.strip` of trailing whitespace, written recursively so that it
unfolds structurally. -/
def pyStripRight : List Char → List Char
  | [] => []
  | c :: t =>
    match pyStripRight t with
    | [] => if c.isWhitespace then [] else [c]
    | r => c :: r

/-- Python `str.strip`: drop leading and trailing whitespace. -/
def pyStrip (l : List Char) : List Char :=
  pyStripRight (l.dropWhile Char.isWhitespace)

/-- Python `str.splitlines` (on `'\n'`; the command outputs the program parses
are newline-separated). Accumulator-based so it unfolds structurally. -/
def splitlinesAux : List Char → List Char → List (List Char)
  | [], acc => if acc.isEmpty then [] else [acc.reverse]
  | '\n' :: t, acc => acc.reverse :: splitlinesAux t []
  | c :: t, acc => splitlinesAux t (c :: acc)

/-- Python `text.splitlines()`. A trailing newline does not produce a final
empty line, interior empty lines are kept, and `"".splitlines() = []`. -/
def splitlines (l : List Char) : List (List Char) :=
  splitlinesAux l []

/-- Python `text.split(":")` (the program only ever splits on `":"`). Keeps
empty fields, and `"".split(":") = [""]`. -/
def splitColonAux : List Char → List Char → List (List Char)
  | [], acc => [acc.reverse]
  | ':' :: t, acc => acc.reverse :: splitColonAux t []
  | c :: t, acc => splitColonAux t (c :: acc)

/-- Python `text.split(":")`. -/
def splitColon (l : List Char) : List (List Char) :=
  splitColonAux l []

/-- Python `":".join(parts)`. -/
def joinColon : List (List Char) → List Char
  | [] => []
  | [c] => c
  | c :: cs => c ++ ':' :: joinColon cs

/-- The 2-character slices `mac[i : i + 2] for i in range(0, len(mac), 2)`. -/
def chunk2 : List Char → List (List Char)
  | [] => []
  | [a] => [[a]]
  | a :: b :: rest => [a, b] :: chunk2 rest

/-- Embedding of `normalize_mac` (source lines 43-45):
`mac = raw.replace(".", "").lower()` then
`":".join(mac[i : i + 2] for i in range(0, len(mac), 2))`. -/
def normalize_mac (raw : List Char) : List Char :=
  joinColon (chunk2 ((raw.filter (· ≠ '.')).map lowerChar))

/-- The `PREFIX_MAP` table (source lines 32-41), in insertion order, which is
the iteration order of `PREFIX_MAP.items()`. -/
def PREFIX_MAP : List (List Char × List Char) :=
  [ ("GigabitEthernet".toList, "Gi".toList),
    ("FastEthernet".toList, "Fa".toList),
    ("TenGigabitEthernet".toList, "Te".toList),
    ("TwentyFiveGigE".toList, "Tf".toList),
    ("FortyGigabitEthernet".toList, "Fo".toList),
    ("HundredGigE".toList, "Hu".toList),
    ("Ethernet".toList, "Et".toList),
    ("Port-channel".toList, "Po".toList) ]

/-- The `for long, short in PREFIX_MAP.items(): if port.startswith(long):
port = short + port[len(long):]; break` loop of `normalize_port`. -/
def prefixReplace : List (List Char × List Char) → List Char → List Char
  | [], port => port
  | (lng, short) :: rest, port =>
    if lng.isPrefixOf port then short ++ port.drop lng.length
    else prefixReplace rest port

/-- Value of a decimal digit string, as Python `int` on a digit string. -/
def digitsToNat (l : List Char) : Nat :=
  l.foldl (fun acc c => acc * 10 + (c.toNat - '0'.toNat)) 0

/-- Decimal rendering of a natural number (Python `f"{int(...)}"`), fuelled so
that it unfolds structurally; `natRender` supplies enough fuel. -/
def natRenderAux : Nat → Nat → List Char → List Char
  | 0, _, acc => acc
  | fuel + 1, n, acc =>
    if n < 10 then Char.ofNat ('0'.toNat + n) :: acc
    else natRenderAux fuel (n / 10) (Char.ofNat ('0'.toNat + n % 10) :: acc)

/-- Decimal rendering of a natural number without leading zeros. -/
def natRender (n : Nat) : List Char :=
  natRenderAux (n + 1) n []

/-- Python `re.match(r"([A-Za-z]+)(\d+)/(\d+)/(\d+)", port)` as maximal munch:
the character classes `[A-Za-z]`, `\d` and the literal `/` are pairwise
disjoint, so the greedy `+` groups never backtrack and `re.match` (a prefix
match; trailing text is ignored) takes each run maximally. -/
def matchPort3 (l : List Char) : Option (List Char × List Char × List Char × List Char) :=
  let a := l.takeWhile Char.isAlpha
  if a.isEmpty then none else
  let r1 := l.dropWhile Char.isAlpha
  let d1 := r1.takeWhile Char.isDigit
  if d1.isEmpty then none else
  match r1.dropWhile Char.isDigit with
  | '/' :: r2 =>
    let d2 := r2.takeWhile Char.isDigit
    if d2.isEmpty then none else
    match r2.dropWhile Char.isDigit with
    | '/' :: r3 =>
      let d3 := r3.takeWhile Char.isDigit
      if d3.isEmpty then none else some (a, d1, d2, d3)
    | _ => none
  | _ => none

/-- Python `re.match(r"([A-Za-z]+)(\d+)/(\d+)", port)`, as for `matchPort3`. -/
def matchPort2 (l : List Char) : Option (List Char × List Char × List Char) :=
  let a := l.takeWhile Char.isAlpha
  if a.isEmpty then none else
  let r1 := l.dropWhile Char.isAlpha
  let d1 := r1.takeWhile Char.isDigit
  if d1.isEmpty then none else
  match r1.dropWhile Char.isDigit with
  | '/' :: r2 =>
    let d2 := r2.takeWhile Char.isDigit
    if d2.isEmpty then none else some (a, d1, d2)
  | _ => none

/-- Python `re.match(r"([A-Za-z]+)(\d+)", port)`, as for `matchPort3`. -/
def matchPort1 (l : List Char) : Option (List Char × List Char) :=
  let a := l.takeWhile Char.isAlpha
  if a.isEmpty then none else
  let r1 := l.dropWhile Char.isAlpha
  let d1 := r1.takeWhile Char.isDigit
  if d1.isEmpty then none else some (a, d1)

/-- Embedding of `normalize_port` (source lines 48-64): strip, substitute the first
matching verbose prefix, then try the three-part, two-part, one-part numeric
decompositions in order, re-rendering each numeric group through `int` (which
drops leading zeros); unmatched input is returned unchanged. -/
def normalize_port (port : List Char) : List Char :=
  let p := prefixReplace PREFIX_MAP (pyStrip port)
  match matchPort3 p with
  | some (a, d1, d2, d3) =>
    a ++ natRender (digitsToNat d1) ++ '/' :: natRender (digitsToNat d2) ++
      '/' :: natRender (digitsToNat d3)
  | none =>
    match matchPort2 p with
    | some (a, d1, d2) =>
      a ++ natRender (digitsToNat d1) ++ '/' :: natRender (digitsToNat d2)
    | none =>
      match matchPort1 p with
      | some (a, d1) => a ++ natRender (digitsToNat d1)
      | none => p

/-- One element of an embedded `re` pattern.  The program's compiled patterns
are concatenations of these: literal text, a case-insensitive ordered literal
alternation (`re.I` groups such as the status keywords), one-character classes,
greedy `+`, lazy `+?`, greedy `*` over a character class, and the `$`/end
anchor. -/
inductive RE where
  | lit (s : List Char)
  | litI (alts : List (List Char))
  | cls (p : Char → Bool)
  | plus (p : Char → Bool)
  | plusLazy (p : Char → Bool)
  | star (p : Char → Bool)
  | eol

/-- Tries the candidate lengths of a greedy repetition from `k` downwards
(longest first, as a greedy quantifier backtracks); `allowEmpty` is true for
`*` and false for `+`. -/
def greedyDesc (cont : List Char → List Char → Option (List (List Char) × List Char))
    (l : List Char) : Nat → Bool → Option (List (List Char) × List Char)
  | 0, allowEmpty => if allowEmpty then cont [] l else none
  | k + 1, allowEmpty =>
    (cont (l.take (k + 1)) (l.drop (k + 1))).orElse
      (fun _ => greedyDesc cont l k allowEmpty)

/-- Tries the candidate lengths of a lazy repetition upwards from `j`
(shortest first), with `fuel` remaining candidates. -/
def lazyAsc (cont : List Char → List Char → Option (List (List Char) × List Char))
    (l : List Char) : Nat → Nat → Option (List (List Char) × List Char)
  | 0, _ => none
  | fuel + 1, j =>
    (cont (l.take j) (l.drop j)).orElse (fun _ => lazyAsc cont l fuel (j + 1))

/-- Tries the literal alternatives in order, comparing case-insensitively
(`re.I`); the capture is the input slice. -/
def tryAlts (cont : List Char → List Char → Option (List (List Char) × List Char)) :
    List (List Char) → List Char → Option (List (List Char) × List Char)
  | [], _ => none
  | a :: as, l =>
    if a.length ≤ l.length ∧ (l.take a.length).map lowerChar = a.map lowerChar then
      (cont (l.take a.length) (l.drop a.length)).orElse (fun _ => tryAlts cont as l)
    else tryAlts cont as l

/-- Backtracking matcher for a concatenation of `RE` elements against a prefix
of `l`, with the same candidate priority order as Python's engine: it returns
the consumed slice of every element plus the unconsumed rest.  `re.match`
semantics: anchored at the start, trailing text allowed unless the pattern ends
in `RE.eol`. -/
def mtch : List RE → List Char → Option (List (List Char) × List Char)
  | [], l => some ([], l)
  | e :: es, l =>
    let cont := fun cap rest => (mtch es rest).map fun (cs, r) => (cap :: cs, r)
    match e with
    | .lit s => if s.isPrefixOf l then cont s (l.drop s.length) else none
    | .litI alts => tryAlts cont alts l
    | .cls p =>
      match l with
      | [] => none
      | c :: t => if p c then cont [c] t else none
    | .plus p => greedyDesc cont l (l.takeWhile p).length false
    | .plusLazy p => lazyAsc cont l (l.takeWhile p).length 1
    | .star p => greedyDesc cont l (l.takeWhile p).length true
    | .eol => if l.isEmpty then cont [] l else none

/-- Python `patt.search`: try a match at every start position, leftmost
first. -/
def searchPat (pat : List RE) : List Char → Option (List (List Char) × List Char)
  | [] => mtch pat []
  | c :: t => (mtch pat (c :: t)).orElse (fun _ => searchPat pat t)

/-- Python `patt.finditer`: repeatedly search, resuming after the end of each
match.  Every pattern the program iterates consumes at least one character, so
`l.length + 1` fuel (supplied by `finditer`) never runs out early. -/
def finditerAux (pat : List RE) : Nat → List Char → List (List (List Char))
  | 0, _ => []
  | fuel + 1, l =>
    match searchPat pat l with
    | none => []
    | some (caps, rest) => caps :: finditerAux pat fuel rest

/-- Python `patt.finditer(text)`, as the capture lists of all matches. -/
def finditer (pat : List RE) (l : List Char) : List (List (List Char)) :=
  finditerAux pat (l.length + 1) l

/-- Character class `\S`. -/
def nonwsP (c : Char) : Bool := !c.isWhitespace

/-- Character class `.` (anything but a newline). -/
def anyP (c : Char) : Bool := c != '\n'

/-- Character class `[0-9a-f.]` under `re.I` (so `A-F` match too). -/
def hexDotP (c : Char) : Bool :=
  c.isDigit || ('a' ≤ c && c ≤ 'f') || ('A' ≤ c && c ≤ 'F') || c == '.'

/-- The status-keyword alternation of `parse_if_status` (source line 126), in
source order. -/
def statusAlts : List (List Char) :=
  [ "connected".toList, "notconnect".toList, "disabled".toList,
    "err-disabled".toList, "inactive".toList, "monitoring".toList,
    "secure-shutdown".toList, "sfpAbsent".toList ]

/-- The compiled `parse_if_status` pattern (source lines 127-136):
`^(\S+)\s+(.+?)\s+(status)\s+(\S+)\s+(\S+)\s+(\S+)\s+(.+)$` with `re.I`.
Captures: 0 = port, 2 = name, 4 = status, 6 = vlan, 8 = duplex, 10 = speed,
12 = type. -/
def ifStatusPat : List RE :=
  [ .plus nonwsP, .plus Char.isWhitespace, .plusLazy anyP, .plus Char.isWhitespace,
    .litI statusAlts, .plus Char.isWhitespace, .plus nonwsP, .plus Char.isWhitespace,
    .plus nonwsP, .plus Char.isWhitespace, .plus nonwsP, .plus Char.isWhitespace,
    .plus anyP, .eol ]

/-- One parsed `show interfaces status` record (source lines 146-156). -/
structure IfRow where
  port : List Char
  status : List Char
  vlan : List Char
  description : List Char
  duplex : List Char
  speed : List Char
  type : List Char
  deriving DecidableEq, Repr

/-- The per-line body of the `parse_if_status` loop (source lines 139-156):
skip blank lines and the `Port`/`---` header lines, then match the compiled
pattern against `line.rstrip()`; an unmatched line is skipped (it is merely
logged at debug level). -/
def ifLineRow (line : List Char) : Option IfRow :=
  if (pyStrip line).isEmpty then none
  else if "Port".toList.isPrefixOf line ∨ "---".toList.isPrefixOf line then none
  else
    match mtch ifStatusPat (pyStripRight line) with
    | none => none
    | some (caps, _) =>
      some { port := normalize_port (caps.getD 0 [])
             status := caps.getD 4 []
             vlan := caps.getD 6 []
             description := pyStrip (caps.getD 2 [])
             duplex := caps.getD 8 []
             speed := caps.getD 10 []
             type := pyStrip (caps.getD 12 []) }

/-- The `parse_if_status` loop over the split lines. -/
def parseIfLines (lines : List (List Char)) : List IfRow :=
  lines.filterMap ifLineRow

/-- Embedding of `parse_if_status` (source lines 118-157). -/
def parse_if_status (output : List Char) : List IfRow :=
  parseIfLines (splitlines output)

/-- One parsed MAC-table record (source lines 110-114). -/
structure MacRow where
  port : List Char
  mac_address : List Char
  vendor : List Char
  deriving DecidableEq, Repr

/-- The compiled `parse_mac_table` pattern (source lines 102-105):
`(\d+)\s+([0-9a-f.]+)\s+(?:DYNAMIC|STATIC|SECURE)\s+(\S+)` with `re.I`.
Captures: 0 = vlan, 2 = mac, 6 = port. -/
def macPat : List RE :=
  [ .plus Char.isDigit, .plus Char.isWhitespace, .plus hexDotP,
    .plus Char.isWhitespace, .litI ["DYNAMIC".toList, "STATIC".toList, "SECURE".toList],
    .plus Char.isWhitespace, .plus nonwsP ]

/-- The rows `parse_mac_table` accumulates before deduplication (source lines
106-114).  The vendor resolution (`get_vendor`, which consults and updates the
shared OUI cache and may call the external service) is abstracted by the
`vendorOf` oracle here; the stateful resolver itself is embedded below as
`get_vendor`. -/
def rawMacRows (vendorOf : List Char → List Char) (output : List Char) : List MacRow :=
  (finditer macPat output).map fun caps =>
    { port := normalize_port (caps.getD 6 [])
      mac_address := normalize_mac (caps.getD 2 [])
      vendor := vendorOf (normalize_mac (caps.getD 2 [])) }

/-- Pandas `DataFrame.drop_duplicates("port")`: keep each row whose port has
not been seen on an earlier row. -/
def dedupPortAux (seen : List (List Char)) : List MacRow → List MacRow
  | [] => []
  | r :: rs =>
    if r.port ∈ seen then dedupPortAux seen rs
    else r :: dedupPortAux (r.port :: seen) rs

/-- Embedding of `parse_mac_table` (source lines 101-115). -/
def parse_mac_table (vendorOf : List Char → List Char) (output : List Char) : List MacRow :=
  dedupPortAux [] (rawMacRows vendorOf output)

/-- Seconds multiplier `dict(w=604800, d=86400, h=3600, m=60, s=1)` of
`_age_to_timedelta` (source line 168). -/
def unitSecs (c : Char) : Nat :=
  if c = 'w' then 604800 else if c = 'd' then 86400
  else if c = 'h' then 3600 else if c = 'm' then 60 else 1

/-- Character class `[wdhms]`. -/
def unitP (c : Char) : Bool :=
  c == 'w' || c == 'd' || c == 'h' || c == 'm' || c == 's'

/-- The `re.findall(r"(\d+)([wdhms])", text)` pattern of `_age_to_timedelta`.
Captures: 0 = number, 1 = unit. -/
def agePat : List RE := [.plus Char.isDigit, .cls unitP]

/-- Python `int(text)`: optional surrounding whitespace, optional sign, at
least one digit; anything else raises `ValueError`. -/
def pyInt (l : List Char) : Except Unit Int :=
  match pyStrip l with
  | '+' :: ds => if ds ≠ [] ∧ ds.all Char.isDigit then .ok (digitsToNat ds) else .error ()
  | '-' :: ds => if ds ≠ [] ∧ ds.all Char.isDigit then .ok (-(digitsToNat ds : Int)) else .error ()
  | ds => if ds ≠ [] ∧ ds.all Char.isDigit then .ok (digitsToNat ds) else .error ()

/-- Embedding of `_age_to_timedelta` (source lines 160-169), with durations in seconds.
The `h, m, s = map(int, text.split(":"))` unpacking raises `ValueError` when
the token does not have exactly three integer fields, which the program never
catches; this is the `.error` case.  The composite-unit branch returns `None`
when no token matched or the sum is zero (`if total` is Python truthiness). -/
def age_to_timedelta (text : List Char) : Except Unit (Option Int) :=
  if text.map lowerChar = "never".toList then .ok none
  else if ':' ∈ text then
    match splitColon text with
    | [hs, ms, ss] => do
      let h ← pyInt hs
      let m ← pyInt ms
      let s ← pyInt ss
      .ok (some (h * 3600 + m * 60 + s))
    | _ => .error ()
  else
    let total : Nat := (finditer agePat text).foldl
      (fun acc caps => acc + digitsToNat (caps.getD 0 []) * unitSecs ((caps.getD 1 []).headD 'x')) 0
    .ok (if total = 0 then none else some (total : Int))

/-- A `last_traffic_seen` value: an absolute timestamp (`now − duration`,
modelled in seconds; the source renders it with `isoformat`) or the literal
`"Never"`. -/
inductive Stamp where
  | time (t : Int)
  | never
  deriving DecidableEq, Repr

/-- One traffic observation (source line 189). -/
structure TrafficRow where
  port : List Char
  last_traffic_seen : Stamp
  deriving DecidableEq, Repr

/-- The compiled header pattern of `parse_last_traffic` (source line 174):
`^(\S+) is .*, line protocol is`.  Capture 0 = port. -/
def hdrPat : List RE :=
  [ .plus nonwsP, .lit " is ".toList, .star anyP, .lit ", line protocol is".toList ]

/-- Python `hdr.match(line)`, returning the port capture. -/
def hdrMatch (line : List Char) : Option (List Char) :=
  (mtch hdrPat line).map fun (caps, _) => caps.getD 0 []

/-- The compiled `Last input (\S+), output (\S+),` pattern of
`parse_last_traffic` (source line 175).  Captures: 1 = input age, 3 = output
age. -/
def lastPat : List RE :=
  [ .lit "Last input ".toList, .plus nonwsP, .lit ", output ".toList,
    .plus nonwsP, .lit ",".toList ]

/-- Python `last.search(line)`, returning the two age captures. -/
def lastSearch (line : List Char) : Option (List Char × List Char) :=
  (searchPat lastPat line).map fun (caps, _) => (caps.getD 1 [], caps.getD 3 [])

/-- Python `min` over a nonempty list, given as head and tail. -/
def listMin (d : Int) (ds : List Int) : Int :=
  ds.foldl min d

/-- The `parse_last_traffic` line loop (source lines 173-191), carrying the
`cur_port` slot.  `deltas = [d for d in (in_d, out_d) if d]` keeps the parsed
durations that are truthy, i.e. present and nonzero (`timedelta(0)` is falsy);
after a record is appended `cur_port` is reset to `None`.  A `ValueError`
raised by `_age_to_timedelta` propagates (the `.error` case). -/
def parseLastLines (now : Int) : List (List Char) → Option (List Char) → Except Unit (List TrafficRow)
  | [], _ => .ok []
  | line :: rest, cur =>
    match hdrMatch line with
    | some p => parseLastLines now rest (some (normalize_port p))
    | none =>
      match cur with
      | none => parseLastLines now rest none
      | some port =>
        match lastSearch line with
        | none => parseLastLines now rest (some port)
        | some (x, y) => do
          let dx ← age_to_timedelta x
          let dy ← age_to_timedelta y
          let deltas := ([dx, dy].filterMap id).filter (fun d => d ≠ 0)
          let stamp := match deltas with
            | [] => Stamp.never
            | d :: ds => Stamp.time (now - listMin d ds)
          let rows ← parseLastLines now rest none
          .ok (⟨port, stamp⟩ :: rows)

/-- Embedding of `parse_last_traffic` (source lines 172-191); `now` stands for
`datetime.datetime.now()` in seconds. -/
def parse_last_traffic (now : Int) (output : List Char) : Except Unit (List TrafficRow) :=
  parseLastLines now (splitlines output) none

/-- One LLDP neighbor record (source lines 195, 207-216).  `get_lldp_neighbors`
itself opens a device session (an external collaborator), so for the merge the
LLDP record set is an arbitrary list of these rows. -/
structure LldpRow where
  port : List Char
  neighbor_name : List Char
  neighbor_port : List Char
  neighbor_platform : List Char
  neighbor_capability : List Char
  neighbor_device_id : List Char
  deriving DecidableEq, Repr

/-- Pandas `left.merge(right, on="port", how="left")`: every left row is kept;
a left row with no key match gets one output row with missing right fields,
and a left row with k ≥ 1 key matches gets k output rows, in order. -/
def leftJoin {α β : Type} (ka : α → List Char) (kb : β → List Char)
    (L : List α) (R : List β) : List (α × Option β) :=
  L.flatMap fun a =>
    match R.filter (fun b => kb b == ka a) with
    | [] => [(a, none)]
    | ms => ms.map fun b => (a, some b)

/-- A row of the merged device snapshot, as built by the three chained merges
of `collect_switch_data` (source lines 260-264). -/
abbrev Merged := ((IfRow × Option MacRow) × Option LldpRow) × Option TrafficRow

/-- The `f["port"] = f["port"].apply(normalize_port)` re-normalization of
source lines 256-258, per frame (a no-op on an empty frame either way). -/
def renormIf (r : IfRow) : IfRow := { r with port := normalize_port r.port }

/-- Port re-normalization of the MAC frame (source lines 256-258). -/
def renormMac (r : MacRow) : MacRow := { r with port := normalize_port r.port }

/-- Port re-normalization of the LLDP frame (source lines 256-258). -/
def renormLldp (r : LldpRow) : LldpRow := { r with port := normalize_port r.port }

/-- Port re-normalization of the traffic frame (source lines 256-258). -/
def renormLast (r : TrafficRow) : TrafficRow := { r with port := normalize_port r.port }

/-- The snapshot merge of `collect_switch_data` (source lines 256-264): the
port re-normalization of all four frames followed by the three left merges on
`port` anchored on the interface-status frame.  When `parse_if_status`,
`parse_mac_table` or `parse_last_traffic` produced no rows, its
`pd.DataFrame(rows)` result is an empty frame with no columns, and
`merge(on="port")` with such a frame on either side raises `KeyError` (the
`.error` case; `collect_switch_data` then aborts for the device).  An empty
LLDP set is different: `get_lldp_neighbors` always constructs its frame with
explicit `columns=cols`, so it merges as an ordinary no-match left join.  The
subsequent steps (source lines 266-277: `fillna`/`replace` on the text
columns, the ARP `ip_address` map, and the metadata columns) are per-row
column edits that keep the row count. -/
def mergeFrames (df_if : List IfRow) (df_mac : List MacRow)
    (df_lldp : List LldpRow) (df_last : List TrafficRow) : Except Unit (List Merged) :=
  let ifs := df_if.map renormIf
  let macs := df_mac.map renormMac
  let lldps := df_lldp.map renormLldp
  let lasts := df_last.map renormLast
  if ifs.isEmpty ∨ macs.isEmpty then .error ()
  else
    let m2 := leftJoin (fun r => r.1.port) (fun r => r.port)
      (leftJoin (fun r => r.port) (fun r => r.port) ifs macs) lldps
    if lasts.isEmpty then .error ()
    else .ok (leftJoin (fun r => r.1.1.port) (fun r => r.port) m2 lasts)

/-- One persisted row of `oui_cache.csv` (source lines 75-80). -/
structure OuiRow where
  oui : List Char
  vendor : List Char
  deriving DecidableEq, Repr

/-- Embedding of `update_oui_cache` (source lines 75-80): append the row only when the OUI
is absent from the store (`if oui not in df.oui.values`). -/
def update_oui_cache (store : List OuiRow) (oui vendor : List Char) : List OuiRow :=
  if oui ∈ store.map (·.oui) then store else store ++ [⟨oui, vendor⟩]

/-- The in-memory `oui_dict` (a Python dict keyed by OUI). -/
abbrev Dict := List (List Char × List Char)

/-- Python `oui_dict[oui]` / `oui in oui_dict`. -/
def dictGet (d : Dict) (k : List Char) : Option (List Char) :=
  (d.find? (fun p => p.1 == k)).map (·.2)

/-- Python `oui_dict[oui] = v`. -/
def dictSet (d : Dict) (k v : List Char) : Dict :=
  match d with
  | [] => [(k, v)]
  | p :: rest => if p.1 = k then (k, v) :: rest else p :: dictSet rest k v

/-- Embedding of `get_vendor` (source lines 84-98).  `lookup` stands for
`requests.get(f"https://api.macvendors.com/{mac}", timeout=5)`: `some v` when
the call succeeds with `r.ok` and body `v`, `none` when it times out, raises,
or returns a non-success status.  The result carries the returned vendor, the
updated in-memory dict, the updated persisted store, and how many external
calls were made. -/
def get_vendor (lookup : List Char → Option (List Char)) (mac : List Char)
    (dict : Dict) (store : List OuiRow) : List Char × Dict × List OuiRow × Nat :=
  let oui := joinColon ((splitColon mac).take 3)
  match dictGet dict oui with
  | some v => (v, dict, store, 0)
  | none =>
    match lookup mac with
    | some vendor =>
      (vendor, dictSet dict oui vendor, update_oui_cache store oui vendor, 1)
    | none =>
      ("Unknown".toList, dictSet dict oui "Unknown".toList,
       update_oui_cache store oui "Unknown".toList, 1)

/-- A sequence of persisted-store updates, one per resolution (source line 92
or 97 firing once per `get_vendor` call that misses the in-memory cache). -/
def resolveSeq (store : List OuiRow) (ops : List (List Char × List Char)) : List OuiRow :=
  ops.foldl (fun s p => update_oui_cache s p.1 p.2) store

/-! ## Helper lemmas -/

theorem char_toNat_ofNat_valid (n : Nat) (h : n.isValidChar) : (Char.ofNat n).toNat = n := by
  simp [Char.ofNat, h, Char.ofNatAux, Char.toNat, UInt32.toNat]

theorem char_le_iff_toNat {a b : Char} : a ≤ b ↔ a.toNat ≤ b.toNat := by
  rw [Char.le_def, UInt32.le_def, BitVec.le_def]
  exact Iff.rfl

theorem toNat_lowerChar_of_upper {c : Char} (h : 'A' ≤ c ∧ c ≤ 'Z') :
    (lowerChar c).toNat = c.toNat + 32 := by
  have h1 : ('A' : Char).toNat ≤ c.toNat := char_le_iff_toNat.mp h.1
  have h2 : c.toNat ≤ ('Z' : Char).toNat := char_le_iff_toNat.mp h.2
  have hA : ('A' : Char).toNat = 65 := by decide
  have hZ : ('Z' : Char).toNat = 90 := by decide
  rw [lowerChar, if_pos h]
  exact char_toNat_ofNat_valid _ (Or.inl (by omega))

theorem lowerChar_idem (c : Char) : lowerChar (lowerChar c) = lowerChar c := by
  by_cases h : 'A' ≤ c ∧ c ≤ 'Z'
  · have hd : (lowerChar c).toNat = c.toNat + 32 := toNat_lowerChar_of_upper h
    have h1 : ('A' : Char).toNat ≤ c.toNat := char_le_iff_toNat.mp h.1
    have hA : ('A' : Char).toNat = 65 := by decide
    have hZ : ('Z' : Char).toNat = 90 := by decide
    have hne : ¬ ('A' ≤ lowerChar c ∧ lowerChar c ≤ 'Z') := by
      rintro ⟨-, hle⟩
      have := char_le_iff_toNat.mp hle
      omega
    conv_lhs => rw [lowerChar]
    rw [if_neg hne]
  · have hc : lowerChar c = c := by rw [lowerChar, if_neg h]
    rw [hc, hc]

theorem lowerChar_ne_dot {c : Char} (h : c ≠ '.') : lowerChar c ≠ '.' := by
  by_cases hu : 'A' ≤ c ∧ c ≤ 'Z'
  · intro he
    have hd : (lowerChar c).toNat = c.toNat + 32 := toNat_lowerChar_of_upper hu
    have h1 : ('A' : Char).toNat ≤ c.toNat := char_le_iff_toNat.mp hu.1
    have hA : ('A' : Char).toNat = 65 := by decide
    have hdot : ('.' : Char).toNat = 46 := by decide
    rw [he] at hd
    omega
  · rw [lowerChar, if_neg hu]; exact h

theorem joinColon_cons2 (x y : List Char) (ys : List (List Char)) :
    joinColon (x :: y :: ys) = x ++ ':' :: joinColon (y :: ys) := rfl

theorem joinColon_chunk2_length :
    ∀ m : List Char, m ≠ [] →
      (joinColon (chunk2 m)).length + 1 = m.length + (m.length + 1) / 2
  | [_], _ => by simp [chunk2, joinColon]
  | [_, _], _ => by simp [chunk2, joinColon]
  | a :: b :: c :: t, _ => by
    have ih := joinColon_chunk2_length (c :: t) (by simp)
    obtain ⟨x, xs, hx⟩ : ∃ x xs, chunk2 (c :: t) = x :: xs := by
      cases t with
      | nil => exact ⟨[c], [], rfl⟩
      | cons d u => exact ⟨[c, d], chunk2 u, rfl⟩
    rw [chunk2, hx, joinColon_cons2, ← hx]
    simp only [List.length_append, List.length_cons, List.length_nil]
    simp only [List.length_cons] at ih
    omega

theorem mem_joinColon_chunk2 :
    ∀ m : List Char, ∀ c, c ∈ joinColon (chunk2 m) → c ∈ m ∨ c = ':'
  | [], _, h => by simp [chunk2, joinColon] at h
  | [a], c, h => by simp [chunk2, joinColon] at h; simp [h]
  | [a, b], c, h => by
    simp [chunk2, joinColon] at h
    rcases h with h | h <;> simp [h]
  | a :: b :: d :: t, c, h => by
    obtain ⟨x, xs, hx⟩ : ∃ x xs, chunk2 (d :: t) = x :: xs := by
      cases t with
      | nil => exact ⟨[d], [], rfl⟩
      | cons e u => exact ⟨[d, e], chunk2 u, rfl⟩
    rw [chunk2, hx, joinColon_cons2, ← hx] at h
    simp only [List.cons_append, List.nil_append, List.mem_cons] at h
    rcases h with h | h | h | h
    · simp [h]
    · simp [h]
    · right; exact h
    · rcases mem_joinColon_chunk2 (d :: t) c h with h2 | h2
      · left; simp [List.mem_cons] at h2 ⊢; tauto
      · right; exact h2

theorem normalize_mac_no_dot {l : List Char} {c : Char}
    (h : c ∈ normalize_mac l) : c ≠ '.' := by
  rcases mem_joinColon_chunk2 _ c h with h2 | h2
  · obtain ⟨d, hd, hdc⟩ := List.mem_map.mp h2
    have : d ≠ '.' := by
      have := List.of_mem_filter hd
      simpa using this
    rw [← hdc]
    exact lowerChar_ne_dot this
  · rw [h2]; decide

theorem normalize_mac_lower {l : List Char} {c : Char}
    (h : c ∈ normalize_mac l) : lowerChar c = c := by
  rcases mem_joinColon_chunk2 _ c h with h2 | h2
  · obtain ⟨d, _, hdc⟩ := List.mem_map.mp h2
    rw [← hdc]
    exact lowerChar_idem d
  · rw [h2]; decide

theorem normalize_mac_normalize_mac (l : List Char) :
    normalize_mac (normalize_mac l) =
      joinColon (chunk2 (normalize_mac l)) := by
  have h1 : (normalize_mac l).filter (fun x => decide (x ≠ '.')) = normalize_mac l :=
    List.filter_eq_self.mpr (fun c hc => by simpa using normalize_mac_no_dot hc)
  have h2 : (normalize_mac l).map lowerChar = normalize_mac l := by
    rw [List.map_congr_left (fun c hc => normalize_mac_lower hc)]
    exact List.map_id _
  conv_lhs =>
    rw [show normalize_mac (normalize_mac l) =
      joinColon (chunk2 (((normalize_mac l).filter (fun x => decide (x ≠ '.'))).map lowerChar))
      from rfl]
  rw [h1, h2]

theorem normalize_mac_length (l : List Char)
    (h : (l.filter (fun x => decide (x ≠ '.'))) ≠ []) :
    (normalize_mac l).length + 1 =
      (l.filter (fun x => decide (x ≠ '.'))).length +
        ((l.filter (fun x => decide (x ≠ '.'))).length + 1) / 2 := by
  unfold normalize_mac
  rw [joinColon_chunk2_length _ (by simpa using h)]
  simp [List.length_map]

theorem normalize_mac_not_idem (l : List Char)
    (h : 3 ≤ (l.filter (fun x => decide (x ≠ '.'))).length) :
    normalize_mac (normalize_mac l) ≠ normalize_mac l := by
  intro he
  have hne : (l.filter (fun x => decide (x ≠ '.'))) ≠ [] := by
    intro h0; rw [h0] at h; simp at h
  have h1 := normalize_mac_length l hne
  have hlen : 4 ≤ (normalize_mac l).length := by omega
  have h2 : (normalize_mac (normalize_mac l)).length + 1 =
      (normalize_mac l).length + ((normalize_mac l).length + 1) / 2 := by
    rw [normalize_mac_normalize_mac, joinColon_chunk2_length _ (by
      intro h0; rw [h0] at hlen; simp at hlen)]
  rw [he] at h2
  omega

theorem normalize_mac_idem_short (l : List Char)
    (h : (l.filter (fun x => decide (x ≠ '.'))).length ≤ 2) :
    normalize_mac (normalize_mac l) = normalize_mac l := by
  rw [normalize_mac_normalize_mac]
  have hlen : (normalize_mac l).length ≤ 2 := by
    rcases Nat.eq_zero_or_pos (l.filter (fun x => decide (x ≠ '.'))).length with h0 | hpos
    · have : (l.filter (fun x => decide (x ≠ '.'))) = [] := List.length_eq_zero.mp h0
      unfold normalize_mac
      rw [this]
      decide
    · have hne : (l.filter (fun x => decide (x ≠ '.'))) ≠ [] := by
        intro h0; rw [h0] at hpos; simp at hpos
      have := normalize_mac_length l hne
      omega
  generalize normalize_mac l = m at hlen ⊢
  rcases m with _ | ⟨a, _ | ⟨b, _ | ⟨c, t⟩⟩⟩
  · rfl
  · rfl
  · rfl
  · simp at hlen

/-! ## C2 -/

/-- C2 counterexample: neither canonicalizer is idempotent on every input.
Re-normalizing the already-normalized `"aa:bb"` re-chunks across the inserted
colon, and `normalize_port "Ethernethernet5"` rebuilds the verbose spelling
`"Ethernet5"`, which a second pass shortens to `"Et5"`. -/
theorem c2_idempotence_counterexample :
    normalize_mac (normalize_mac "aabb".toList) ≠ normalize_mac "aabb".toList ∧
    normalize_port (normalize_port "Ethernethernet5".toList) ≠
      normalize_port "Ethernethernet5".toList := by
  constructor <;> decide

/-- C2 (amended): `normalize_mac` is idempotent at an input exactly when at
most two characters survive dot-stripping (so it is not idempotent on any
well-formed MAC), and `normalize_port` is idempotent at the spec's sampled
port spellings. -/
theorem c2_canonicalizer_idempotence_amended :
    (∀ l : List Char,
      normalize_mac (normalize_mac l) = normalize_mac l ↔
        (l.filter (fun x => decide (x ≠ '.'))).length ≤ 2) ∧
    normalize_port (normalize_port "GigabitEthernet0/1".toList) =
      normalize_port "GigabitEthernet0/1".toList ∧
    normalize_port (normalize_port "Fa0/01/02".toList) =
      normalize_port "Fa0/01/02".toList ∧
    normalize_port (normalize_port "TenGigabitEthernet1/1/1".toList) =
      normalize_port "TenGigabitEthernet1/1/1".toList ∧
    normalize_port (normalize_port "Port-channel10".toList) =
      normalize_port "Port-channel10".toList ∧
    normalize_port (normalize_port "  Vlan010  ".toList) =
      normalize_port "  Vlan010  ".toList := by
  refine ⟨fun l => ⟨fun he => ?_, normalize_mac_idem_short l⟩, ?_, ?_, ?_, ?_, ?_⟩
  · by_contra hgt
    exact normalize_mac_not_idem l (by omega) he
  all_goals decide

/-! ## C5 -/

/-- C5 counterexample: `normalize_mac` only strips dots, so the dash-separated
spelling of a hardware address does not normalize to the same canonical string
as the separator-free spelling. -/
theorem c5_dash_counterexample :
    normalize_mac "AA-BB-CC-DD-EE-FF".toList ≠
      normalize_mac "AABBCCDDEEFF".toList ∧
    normalize_mac "AA-BB-CC-DD-EE-FF".toList ≠ "aa:bb:cc:dd:ee:ff".toList := by
  constructor <;> decide

/-- C5 (amended): dot-separated and separator-free spellings of a hardware
address normalize identically (dots are stripped wherever they occur), and the
spec's example value holds; dash-separated spellings are not canonicalized. -/
theorem c5_mac_dot_insensitive_amended :
    (∀ l : List Char, normalize_mac (l.filter (fun x => decide (x ≠ '.'))) = normalize_mac l) ∧
    normalize_mac "AABB.CCDD.EEFF".toList = "aa:bb:cc:dd:ee:ff".toList ∧
    normalize_mac "AABBCCDDEEFF".toList = "aa:bb:cc:dd:ee:ff".toList := by
  refine ⟨fun l => ?_, by decide, by decide⟩
  unfold normalize_mac
  rw [List.filter_filter]
  simp

/-! ## C9 -/

/-- C9: the duration parser maps `"1w2d"` to exactly 9 days in seconds
(777600), maps the literal token `"never"` case-insensitively to the
no-observation sentinel (`none`, not a zero duration), and maps `"00:05:30"`
to exactly 330 seconds. -/
theorem c9_age_reference_values :
    age_to_timedelta "1w2d".toList = .ok (some 777600) ∧
    age_to_timedelta "never".toList = .ok none ∧
    age_to_timedelta "NeVeR".toList = .ok none ∧
    age_to_timedelta "00:05:30".toList = .ok (some 330) :=
  ⟨rfl, rfl, rfl, rfl⟩

/-! ## C7 -/

theorem dedupPortAux_not_seen :
    ∀ (seen : List (List Char)) (rs : List MacRow) (r : MacRow),
      r ∈ dedupPortAux seen rs → r.port ∉ seen
  | _, [], _, h => by simp [dedupPortAux] at h
  | seen, x :: rest, r, h => by
    rw [dedupPortAux] at h
    split at h
    · exact dedupPortAux_not_seen seen rest r h
    · rcases List.mem_cons.mp h with he | hm
      · subst he
        next hns => exact hns
      · have := dedupPortAux_not_seen (x.port :: seen) rest r hm
        intro hc
        exact this (List.mem_cons_of_mem _ hc)

theorem dedupPortAux_ports_nodup :
    ∀ (seen : List (List Char)) (rs : List MacRow),
      ((dedupPortAux seen rs).map (·.port)).Nodup
  | _, [] => by simp [dedupPortAux]
  | seen, x :: rest => by
    rw [dedupPortAux]
    split
    · exact dedupPortAux_ports_nodup seen rest
    · simp only [List.map_cons, List.nodup_cons]
      refine ⟨?_, dedupPortAux_ports_nodup (x.port :: seen) rest⟩
      intro hmem
      obtain ⟨r, hr, hp⟩ := List.mem_map.mp hmem
      have := dedupPortAux_not_seen (x.port :: seen) rest r hr
      exact this (by rw [hp]; exact List.mem_cons_self _ _)

theorem dedupPortAux_first_wins :
    ∀ (seen : List (List Char)) (rs : List MacRow) (r : MacRow),
      r ∈ dedupPortAux seen rs →
      ∃ l1 l2, rs = l1 ++ r :: l2 ∧ ∀ s ∈ l1, s.port ≠ r.port
  | _, [], _, h => by simp [dedupPortAux] at h
  | seen, x :: rest, r, h => by
    rw [dedupPortAux] at h
    split at h
    · next hseen =>
      obtain ⟨l1, l2, heq, hne⟩ := dedupPortAux_first_wins seen rest r h
      have hrp : r.port ∉ seen := dedupPortAux_not_seen seen rest r h
      refine ⟨x :: l1, l2, by simp [heq], ?_⟩
      intro s hs
      rcases List.mem_cons.mp hs with he | hm
      · subst he
        intro hc
        rw [hc] at hseen
        exact hrp hseen
      · exact hne s hm
    · next hseen =>
      rcases List.mem_cons.mp h with he | hm
      · subst he
        exact ⟨[], rest, rfl, by simp⟩
      · obtain ⟨l1, l2, heq, hne⟩ := dedupPortAux_first_wins (x.port :: seen) rest r hm
        have hrp : r.port ∉ x.port :: seen :=
          dedupPortAux_not_seen (x.port :: seen) rest r hm
        refine ⟨x :: l1, l2, by simp [heq], ?_⟩
        intro s hs
        rcases List.mem_cons.mp hs with he2 | hm2
        · subst he2
          intro hc
          exact hrp (by rw [← hc]; exact List.mem_cons_self _ _)
        · exact hne s hm2

theorem dedupPortAux_complete :
    ∀ (seen : List (List Char)) (rs : List MacRow) (s : MacRow),
      s ∈ rs → s.port ∈ seen ∨ ∃ r ∈ dedupPortAux seen rs, r.port = s.port
  | _, [], _, h => by simp at h
  | seen, x :: rest, s, h => by
    rw [dedupPortAux]
    rcases List.mem_cons.mp h with he | hm
    · subst he
      by_cases hx : s.port ∈ seen
      · exact Or.inl hx
      · rw [if_neg hx]
        exact Or.inr ⟨s, List.mem_cons_self _ _, rfl⟩
    · by_cases hx : x.port ∈ seen
      · rw [if_pos hx]
        exact dedupPortAux_complete seen rest s hm
      · rw [if_neg hx]
        rcases dedupPortAux_complete (x.port :: seen) rest s hm with hin | ⟨r, hr, hp⟩
        · rcases List.mem_cons.mp hin with he2 | hs2
          · exact Or.inr ⟨x, List.mem_cons_self _ _, he2.symm⟩
          · exact Or.inl hs2
        · exact Or.inr ⟨r, List.mem_cons_of_mem _ hr, hp⟩

/-- C7: `parse_mac_table` keeps at most one entry per canonical port id; the
surviving entry for a port is the first matching row of the raw match list
(every earlier raw row has a different port), and every port that occurs among
the raw matches is represented. -/
theorem c7_mac_table_dedup_first_wins
    (vendorOf : List Char → List Char) (output : List Char) :
    ((parse_mac_table vendorOf output).map (·.port)).Nodup ∧
    (∀ r ∈ parse_mac_table vendorOf output,
      ∃ l1 l2, rawMacRows vendorOf output = l1 ++ r :: l2 ∧
        ∀ s ∈ l1, s.port ≠ r.port) ∧
    (∀ s ∈ rawMacRows vendorOf output,
      ∃ r ∈ parse_mac_table vendorOf output, r.port = s.port) := by
  refine ⟨dedupPortAux_ports_nodup [] _, ?_, ?_⟩
  · intro r hr
    exact dedupPortAux_first_wins [] _ r hr
  · intro s hs
    rcases dedupPortAux_complete [] _ s hs with hin | h
    · simp at hin
    · exact h

/-- C7 witness: on a MAC table whose three data lines name the port `Gi1/0/1`
twice, the parsed table has pairwise distinct ports. -/
theorem c7_witness :
    ((parse_mac_table (fun _ => "Unknown".toList)
      " 1    aabb.ccdd.eeff    DYNAMIC     Gi1/0/1\n 1    1111.2222.3333    STATIC      Gi1/0/2\n 2    4444.5555.6666    DYNAMIC     Gi1/0/1\n".toList).map
        (·.port)).Nodup :=
  (c7_mac_table_dedup_first_wins (fun _ => "Unknown".toList) _).1

/-! ## C8 -/

theorem update_oui_cache_keys_nodup (store : List OuiRow) (oui vendor : List Char)
    (h : (store.map (·.oui)).Nodup) :
    (((update_oui_cache store oui vendor).map (·.oui)).Nodup) := by
  rw [update_oui_cache]
  split
  · exact h
  · next hnot =>
    simp only [List.map_append, List.map_cons, List.map_nil]
    rw [List.nodup_append]
    exact ⟨h, List.nodup_singleton _, by simpa using fun hc => hnot hc⟩

theorem update_oui_cache_mem_self (store : List OuiRow) (oui vendor : List Char) :
    oui ∈ (update_oui_cache store oui vendor).map (·.oui) := by
  rw [update_oui_cache]
  split
  · next hmem => exact hmem
  · simp

theorem update_oui_cache_mem_mono (store : List OuiRow) (o oui vendor : List Char)
    (h : o ∈ store.map (·.oui)) :
    o ∈ (update_oui_cache store oui vendor).map (·.oui) := by
  rw [update_oui_cache]
  split
  · exact h
  · simp only [List.map_append, List.mem_append]
    exact Or.inl h

theorem nodup_mem_countP {α : Type} [DecidableEq α] :
    ∀ (l : List α) (o : α), l.Nodup → o ∈ l →
      l.countP (fun x => decide (x = o)) = 1
  | [], _, _, hm => by simp at hm
  | a :: t, o, h, hm => by
    rcases List.mem_cons.mp hm with he | hmt
    · subst he
      rw [List.countP_cons]
      have hnot : o ∉ t := (List.nodup_cons.mp h).1
      have h0 : t.countP (fun x => decide (x = o)) = 0 := by
        rw [List.countP_eq_zero]
        intro x hx
        simp only [decide_eq_true_eq]
        intro hc
        exact hnot (hc ▸ hx)
      rw [h0]
      simp
    · have hne : a ≠ o := by
        intro hc
        exact (List.nodup_cons.mp h).1 (hc ▸ hmt)
      rw [List.countP_cons]
      rw [nodup_mem_countP t o (List.nodup_cons.mp h).2 hmt]
      simp [hne]

theorem resolveSeq_keys_nodup :
    ∀ (ops : List (List Char × List Char)) (store : List OuiRow),
      (store.map (·.oui)).Nodup → (((resolveSeq store ops).map (·.oui)).Nodup)
  | [], _, h => h
  | p :: ops, store, h =>
    resolveSeq_keys_nodup ops _ (update_oui_cache_keys_nodup store p.1 p.2 h)

theorem resolveSeq_mem_mono :
    ∀ (ops : List (List Char × List Char)) (store : List OuiRow) (o : List Char),
      o ∈ store.map (·.oui) → o ∈ (resolveSeq store ops).map (·.oui)
  | [], _, _, h => h
  | p :: ops, store, o, h =>
    resolveSeq_mem_mono ops _ o (update_oui_cache_mem_mono store o p.1 p.2 h)

/-- C8: the persisted vendor store stays uniquely keyed by OUI under any
sequence of `update_oui_cache` resolutions, and resolving the same OUI any
positive number of times starting from an empty store leaves exactly one row
for that OUI. -/
theorem c8_store_keyed_uniquely :
    (∀ (store : List OuiRow) (ops : List (List Char × List Char)),
      (store.map (·.oui)).Nodup → (((resolveSeq store ops).map (·.oui)).Nodup)) ∧
    (∀ (o : List Char) (ops : List (List Char × List Char)),
      ops ≠ [] → (∀ p ∈ ops, p.1 = o) →
      ((resolveSeq [] ops).map (·.oui)).countP (fun x => decide (x = o)) = 1) := by
  constructor
  · intro store ops h
    exact resolveSeq_keys_nodup ops store h
  · intro o ops hne hall
    have hnodup : (((resolveSeq [] ops).map (·.oui)).Nodup) :=
      resolveSeq_keys_nodup ops [] (by simp)
    have hmem : o ∈ (resolveSeq [] ops).map (·.oui) := by
      cases ops with
      | nil => exact absurd rfl hne
      | cons p rest =>
        have hp : p.1 = o := hall p (List.mem_cons_self _ _)
        have : o ∈ (update_oui_cache [] p.1 p.2).map (·.oui) := by
          rw [hp] at *
          exact update_oui_cache_mem_self [] o p.2
        exact resolveSeq_mem_mono rest _ o this
    exact nodup_mem_countP _ o hnodup hmem

/-- C8 witness: resolving the OUI `aa:bb:cc` three times in a row (one
successful lookup, two failures) leaves exactly one persisted row for it. -/
theorem c8_witness :
    ((resolveSeq []
      [("aa:bb:cc".toList, "AcmeCorp".toList),
       ("aa:bb:cc".toList, "Unknown".toList),
       ("aa:bb:cc".toList, "Unknown".toList)]).map (·.oui)).countP
        (fun x => decide (x = "aa:bb:cc".toList)) = 1 :=
  c8_store_keyed_uniquely.2 "aa:bb:cc".toList _ (by simp) (by simp)

/-! ## C6 -/

theorem dictGet_dictSet :
    ∀ (d : Dict) (k v : List Char), dictGet (dictSet d k v) k = some v
  | [], k, v => by simp [dictSet, dictGet, List.find?]
  | p :: rest, k, v => by
    rw [dictSet]
    split
    · simp [dictGet, List.find?]
    · next hne =>
      rw [dictGet, List.find?]
      have : (p.1 == k) = false := by
        simp only [beq_eq_false_iff_ne, ne_eq]
        exact hne
      rw [this]
      exact dictGet_dictSet rest k v

/-- C6: when the OUI misses the in-memory cache and the external lookup fails,
`get_vendor` returns `"Unknown"`, writes `"Unknown"` for the OUI into both the
in-memory cache and the persisted store, and a second resolution of the same
OUI then performs no external call; when the OUI is already cached,
`get_vendor` returns the cached vendor with no external call and no state
change. -/
theorem c6_vendor_lookup_failure
    (lookup : List Char → Option (List Char)) (mac : List Char)
    (dict : Dict) (store : List OuiRow) :
    (dictGet dict (joinColon ((splitColon mac).take 3)) = none →
     lookup mac = none →
     joinColon ((splitColon mac).take 3) ∉ store.map (·.oui) →
     get_vendor lookup mac dict store =
        ("Unknown".toList,
         dictSet dict (joinColon ((splitColon mac).take 3)) "Unknown".toList,
         store ++ [⟨joinColon ((splitColon mac).take 3), "Unknown".toList⟩], 1) ∧
     get_vendor lookup mac
        (dictSet dict (joinColon ((splitColon mac).take 3)) "Unknown".toList)
        (store ++ [⟨joinColon ((splitColon mac).take 3), "Unknown".toList⟩]) =
        ("Unknown".toList,
         dictSet dict (joinColon ((splitColon mac).take 3)) "Unknown".toList,
         store ++ [⟨joinColon ((splitColon mac).take 3), "Unknown".toList⟩], 0)) ∧
    (∀ v, dictGet dict (joinColon ((splitColon mac).take 3)) = some v →
     get_vendor lookup mac dict store = (v, dict, store, 0)) := by
  constructor
  · intro hmiss hfail hstore
    constructor
    · rw [get_vendor, hmiss, hfail, update_oui_cache, if_neg hstore]
    · rw [get_vendor, dictGet_dictSet]
  · intro v hhit
    rw [get_vendor, hhit]

/-- C6 witness: with an empty cache and store and a lookup that always fails,
resolving `aa:bb:cc:dd:ee:ff` yields `"Unknown"`, persists it under
`aa:bb:cc`, and the immediate second resolution makes no external call. -/
theorem c6_witness :
    get_vendor (fun _ => none) "aa:bb:cc:dd:ee:ff".toList [] [] =
      ("Unknown".toList, [("aa:bb:cc".toList, "Unknown".toList)],
       [⟨"aa:bb:cc".toList, "Unknown".toList⟩], 1) ∧
    get_vendor (fun _ => none) "aa:bb:cc:dd:ee:ff".toList
        [("aa:bb:cc".toList, "Unknown".toList)]
        [⟨"aa:bb:cc".toList, "Unknown".toList⟩] =
      ("Unknown".toList, [("aa:bb:cc".toList, "Unknown".toList)],
       [⟨"aa:bb:cc".toList, "Unknown".toList⟩], 0) := by
  have h := (c6_vendor_lookup_failure (fun _ => none) "aa:bb:cc:dd:ee:ff".toList
    [] []).1 rfl rfl (by decide)
  exact ⟨h.1, h.2⟩

/-! ## C1 -/

theorem filter_key_length_le_one {β : Type} (kb : β → List Char) :
    ∀ R : List β, ((R.map kb).Nodup) → ∀ k : List Char,
      (R.filter (fun b => kb b == k)).length ≤ 1
  | [], _, _ => by simp
  | r :: rest, h, k => by
    have hh : (kb r :: rest.map kb).Nodup := by simpa using h
    rw [List.filter_cons]
    by_cases he : kb r = k
    · rw [if_pos (by simpa using he)]
      have h0 : rest.filter (fun b => kb b == k) = [] := by
        rw [List.filter_eq_nil_iff]
        intro b hb
        simp only [beq_iff_eq]
        intro hc
        exact (List.nodup_cons.mp hh).1 (by
          rw [he, ← hc]
          exact List.mem_map_of_mem kb hb)
      rw [h0]
      simp
    · rw [if_neg (by simpa using he)]
      exact filter_key_length_le_one kb rest (List.nodup_cons.mp hh).2 k

theorem leftJoin_length {α β : Type} (ka : α → List Char) (kb : β → List Char)
    (R : List β) (h : ∀ k : List Char, (R.filter (fun b => kb b == k)).length ≤ 1) :
    ∀ L : List α, (leftJoin ka kb L R).length = L.length
  | [] => by simp [leftJoin]
  | a :: t => by
    have ih := leftJoin_length ka kb R h t
    rw [leftJoin, List.flatMap_cons]
    rw [leftJoin] at ih
    rw [List.length_append, ih]
    have hk := h (ka a)
    rcases hf : R.filter (fun b => kb b == ka a) with _ | ⟨m, ms⟩
    · simp [hf]
      omega
    · rw [hf] at hk
      simp only [List.length_cons] at hk
      have : ms = [] := List.length_eq_zero.mp (by omega)
      subst this
      simp [hf]
      omega

/-- C1 counterexample: a status output with a single port, merged against a
singleton MAC set, an LLDP record set holding two records for that same port,
and a singleton traffic set, succeeds and yields two merged rows rather than
one; a pandas left merge multiplies a left row by the number of key matches on
the right. -/
theorem c1_duplicate_lldp_counterexample :
    (mergeFrames
      (parse_if_status "Gi1/0/1 up connected 1 full 1000 RJ45\n".toList)
      [⟨"Gi1/0/1".toList, "aa:bb:cc:dd:ee:ff".toList, "Acme".toList⟩]
      [⟨"Gi1/0/1".toList, "swA".toList, "Gi0/1".toList, "ciscoA".toList, "B".toList, "idA".toList⟩,
       ⟨"Gi1/0/1".toList, "swB".toList, "Gi0/2".toList, "ciscoB".toList, "B".toList, "idB".toList⟩]
      [⟨"Gi1/0/1".toList, Stamp.never⟩]).map List.length = .ok 2 ∧
    (((parse_if_status "Gi1/0/1 up connected 1 full 1000 RJ45\n".toList).map
      (·.port)).dedup).length = 1 :=
  ⟨rfl, by decide⟩

/-- C1 (amended): when the interface-status, MAC and traffic record sets are
nonempty (with an empty one, the column-less empty frame makes the pandas
merge raise `KeyError` and the device's collection aborts) and each joined
record set carries at most one record per canonical port id (as the
deduplicated MAC table always does), the merge succeeds with exactly one row
per interface-status row, i.e. exactly N rows for N distinct status ports;
with several records for one port in a joined set the merge multiplies rows
instead. -/
theorem c1_merge_row_count_amended
    (txt : List Char) (mac : List MacRow) (lldp : List LldpRow) (last : List TrafficRow)
    (hne_if : parse_if_status txt ≠ [])
    (hne_mac : mac ≠ []) (hne_last : last ≠ [])
    (hif : ((parse_if_status txt).map (·.port)).Nodup)
    (hmac : (((mac.map renormMac).map (·.port)).Nodup))
    (hlldp : (((lldp.map renormLldp).map (·.port)).Nodup))
    (hlast : (((last.map renormLast).map (·.port)).Nodup)) :
    (mergeFrames (parse_if_status txt) mac lldp last).map List.length =
      .ok ((((parse_if_status txt).map (·.port)).dedup).length) := by
  have hA : ¬ ((((parse_if_status txt).map renormIf).isEmpty = true) ∨
      (((mac.map renormMac)).isEmpty = true)) := by
    rintro (h | h) <;> simp only [List.isEmpty_iff, List.map_eq_nil_iff] at h
    · exact hne_if h
    · exact hne_mac h
  have hB : ¬ (((last.map renormLast)).isEmpty = true) := by
    intro h
    simp only [List.isEmpty_iff, List.map_eq_nil_iff] at h
    exact hne_last h
  simp only [mergeFrames]
  rw [if_neg hA, if_neg hB]
  simp only [Except.map]
  congr 1
  rw [leftJoin_length _ _ _ (filter_key_length_le_one _ _ hlast)]
  rw [leftJoin_length _ _ _ (filter_key_length_le_one _ _ hlldp)]
  rw [leftJoin_length _ _ _ (filter_key_length_le_one _ _ hmac)]
  rw [List.dedup_eq_self.mpr hif]
  simp [List.length_map]

/-- C1 witness: a two-port status output merged with singleton MAC, LLDP and
traffic sets succeeds and keeps exactly its two distinct-port rows. -/
theorem c1_witness :
    (mergeFrames
      (parse_if_status "Gi1/0/1 up connected 1 full 1000 RJ45\nGi1/0/2 dn notconnect 1 auto auto RJ45\n".toList)
      [⟨"Gi1/0/1".toList, "aa:bb:cc:dd:ee:ff".toList, "Acme".toList⟩]
      [⟨"Gi1/0/2".toList, "swA".toList, "Gi0/1".toList, "ciscoA".toList, "B".toList, "idA".toList⟩]
      [⟨"Gi1/0/2".toList, Stamp.never⟩]).map List.length =
      .ok ((((parse_if_status "Gi1/0/1 up connected 1 full 1000 RJ45\nGi1/0/2 dn notconnect 1 auto auto RJ45\n".toList).map
        (·.port)).dedup).length) :=
  c1_merge_row_count_amended _ _ _ _ (by decide) (by decide) (by decide)
    (by decide) (by decide) (by decide) (by decide)

/-! ## C3 -/

theorem parseIfLines_skip_line (L1 L2 : List (List Char)) (bad : List Char)
    (h : ifLineRow bad = none) :
    parseIfLines (L1 ++ bad :: L2) = parseIfLines (L1 ++ L2) := by
  simp [parseIfLines, List.filterMap_append, h]

theorem parseLastLines_skip_line (now : Int) (bad : List Char)
    (L2 : List (List Char)) (h1 : hdrMatch bad = none) (h2 : lastSearch bad = none) :
    ∀ (L1 : List (List Char)) (cur : Option (List Char)),
      parseLastLines now (L1 ++ bad :: L2) cur = parseLastLines now (L1 ++ L2) cur
  | [], cur => by
    simp only [List.nil_append, parseLastLines, h1]
    cases cur with
    | none => rfl
    | some port => simp only [h2]
  | line :: t, cur => by
    rw [List.cons_append, List.cons_append]
    simp only [parseLastLines]
    cases hh : hdrMatch line with
    | some p => exact parseLastLines_skip_line now bad L2 h1 h2 t (some (normalize_port p))
    | none =>
      cases cur with
      | none => exact parseLastLines_skip_line now bad L2 h1 h2 t none
      | some port =>
        cases hl : lastSearch line with
        | none => exact parseLastLines_skip_line now bad L2 h1 h2 t (some port)
        | some xy =>
          obtain ⟨x, y⟩ := xy
          simp only [parseLastLines_skip_line now bad L2 h1 h2 t none]

/-- C3 counterexample: the traffic-age parser is not exception-free.  On a
block whose matched age token `0:00` contains a colon but not three integer
fields, `h, m, s = map(int, text.split(":"))` raises `ValueError`, aborting
the whole output instead of skipping the line. -/
theorem c3_traffic_raises_counterexample :
    parse_last_traffic 0
      "Gi1 is up, line protocol is up\nLast input 0:00, output never,\n".toList =
      .error () := rfl

/-- C3 (amended): the interface-status parser skips any line that matches no
known pattern and never fails — inserting a skipped line anywhere changes
nothing, and one malformed status line among ten yields exactly nine records —
and the traffic-age parser likewise skips lines that match neither the header
nor the `Last input` pattern; but a traffic line whose matched age token is
malformed raises and aborts the whole output. -/
theorem c3_parser_line_tolerance_amended :
    (∀ (L1 L2 : List (List Char)) (bad : List Char), ifLineRow bad = none →
      parseIfLines (L1 ++ bad :: L2) = parseIfLines (L1 ++ L2)) ∧
    (∀ (now : Int) (bad : List Char) (L1 L2 : List (List Char))
        (cur : Option (List Char)),
      hdrMatch bad = none → lastSearch bad = none →
      parseLastLines now (L1 ++ bad :: L2) cur = parseLastLines now (L1 ++ L2) cur) ∧
    (parse_if_status
      ("Gi1/0/1 up connected 1 full 1000 RJ45\nGi1/0/2 up connected 1 full 1000 RJ45\nGi1/0/3 up connected 1 full 1000 RJ45\nGi1/0/4 up connected 1 full 1000 RJ45\nGi1/0/5 oops broken line\nGi1/0/6 up connected 1 full 1000 RJ45\nGi1/0/7 up connected 1 full 1000 RJ45\nGi1/0/8 up connected 1 full 1000 RJ45\nGi1/0/9 up connected 1 full 1000 RJ45\nGi1/0/10 up connected 1 full 1000 RJ45\n".toList)).length = 9 := by
  refine ⟨parseIfLines_skip_line, ?_, by decide⟩
  intro now bad L1 L2 cur h1 h2
  exact parseLastLines_skip_line now bad L2 h1 h2 L1 cur

/-- C3 witness: inserting the unparseable line `total garbage here` between
two well-formed status lines leaves the parsed records unchanged. -/
theorem c3_witness :
    parseIfLines
      ["Gi1/0/1 up connected 1 full 1000 RJ45".toList,
       "total garbage here".toList,
       "Gi1/0/2 up connected 1 full 1000 RJ45".toList] =
    parseIfLines
      ["Gi1/0/1 up connected 1 full 1000 RJ45".toList,
       "Gi1/0/2 up connected 1 full 1000 RJ45".toList] :=
  c3_parser_line_tolerance_amended.1
    ["Gi1/0/1 up connected 1 full 1000 RJ45".toList]
    ["Gi1/0/2 up connected 1 full 1000 RJ45".toList]
    "total garbage here".toList (by decide)

/-! ## C10 -/

theorem uint32_le_iff_toNat {a b : UInt32} : a ≤ b ↔ a.toNat ≤ b.toNat := by
  rw [UInt32.le_def, BitVec.le_def]
  exact Iff.rfl

theorem digit_not_alpha {c : Char} (h : c.isDigit = true) : c.isAlpha = false := by
  simp only [Char.isDigit, Bool.and_eq_true, decide_eq_true_eq, ge_iff_le] at h
  have h1 : (48 : UInt32).toNat ≤ c.val.toNat := uint32_le_iff_toNat.mp h.1
  have h2 : c.val.toNat ≤ (57 : UInt32).toNat := uint32_le_iff_toNat.mp h.2
  rw [Char.isAlpha, Char.isUpper, Char.isLower]
  by_contra hh
  rw [Bool.not_eq_false, Bool.or_eq_true, Bool.and_eq_true, Bool.and_eq_true] at hh
  simp only [decide_eq_true_eq, ge_iff_le] at hh
  have e1 : (48 : UInt32).toNat = 48 := rfl
  have e2 : (57 : UInt32).toNat = 57 := rfl
  have e3 : (65 : UInt32).toNat = 65 := rfl
  have e4 : (97 : UInt32).toNat = 97 := rfl
  rcases hh with ⟨hh1, -⟩ | ⟨hh1, -⟩
  · have := uint32_le_iff_toNat.mp hh1
    omega
  · have := uint32_le_iff_toNat.mp hh1
    omega

theorem alpha_not_digit {c : Char} (h : c.isAlpha = true) : c.isDigit = false := by
  by_contra hh
  rw [Bool.not_eq_false] at hh
  rw [digit_not_alpha hh] at h
  exact Bool.false_ne_true h

theorem ws_enum {c : Char} (h : c.isWhitespace = true) :
    c = ' ' ∨ c = '\t' ∨ c = '\x0d' ∨ c = '\n' := by
  simp only [Char.isWhitespace, Bool.or_eq_true, decide_eq_true_eq] at h
  tauto

theorem digit_not_ws {c : Char} (h : c.isDigit = true) : c.isWhitespace = false := by
  by_contra hh
  rw [Bool.not_eq_false] at hh
  rcases ws_enum hh with h2 | h2 | h2 | h2 <;> (rw [h2] at h; exact absurd h (by decide))

theorem alpha_not_ws {c : Char} (h : c.isAlpha = true) : c.isWhitespace = false := by
  by_contra hh
  rw [Bool.not_eq_false] at hh
  rcases ws_enum hh with h2 | h2 | h2 | h2 <;> (rw [h2] at h; exact absurd h (by decide))

theorem pyStripRight_snoc_append :
    ∀ (Y : List Char) (c : Char) (t : List Char), c.isWhitespace = false →
      pyStripRight ((Y ++ [c]) ++ t) = (Y ++ [c]) ++ pyStripRight t
  | [], c, t, hc => by
    have he : (([] : List Char) ++ [c]) ++ t = c :: t := by simp
    rw [he, pyStripRight]
    cases hpt : pyStripRight t with
    | nil => simp [hc]
    | cons r rs => simp
  | y :: Y2, c, t, hc => by
    have ih := pyStripRight_snoc_append Y2 c t hc
    have he : ((y :: Y2 ++ [c]) ++ t) = y :: ((Y2 ++ [c]) ++ t) := by simp
    rw [he, pyStripRight, ih]
    cases hY : (Y2 ++ [c]) ++ pyStripRight t with
    | nil => exact absurd hY (by simp)
    | cons r rs => rw [← hY]; simp

theorem pyStripRight_head_shape (c : Char) (l : List Char) :
    pyStripRight (c :: l) = [] ∨ ∃ r, pyStripRight (c :: l) = c :: r := by
  rw [pyStripRight]
  cases pyStripRight l with
  | nil =>
    by_cases hc : c.isWhitespace
    · rw [if_pos hc]; exact Or.inl rfl
    · rw [if_neg hc]; exact Or.inr ⟨[], rfl⟩
  | cons r rs => exact Or.inr ⟨r :: rs, rfl⟩

theorem prefixReplace_id :
    ∀ (m : List (List Char × List Char)) (p : List Char),
      (∀ pr ∈ m, pr.1.isPrefixOf p = false) → prefixReplace m p = p
  | [], _, _ => rfl
  | pr :: rest, p, h => by
    rw [prefixReplace]
    rw [h pr (List.mem_cons_self _ _)]
    simp only [Bool.false_eq_true, if_false]
    exact prefixReplace_id rest p fun q hq => h q (List.mem_cons_of_mem _ hq)

theorem isPrefixOf_append_digit :
    ∀ (lng a rest : List Char), (∀ c ∈ lng, c.isDigit = false) →
      (∀ hd, rest.head? = some hd → hd.isDigit = true) →
      lng.isPrefixOf a = false → lng.isPrefixOf (a ++ rest) = false
  | [], a, _, _, _, h3 => by simp [List.isPrefixOf] at h3
  | l :: ls, [], rest, h1, h2, _ => by
    cases hr : rest with
    | nil => rfl
    | cons d rest2 =>
      have hd : d.isDigit = true := h2 d (by rw [hr]; rfl)
      have hl : l.isDigit = false := h1 l (List.mem_cons_self _ _)
      simp only [List.nil_append, hr, List.isPrefixOf, Bool.and_eq_false_iff]
      left
      simp only [beq_eq_false_iff_ne, ne_eq]
      intro he
      rw [he, hd] at hl
      exact absurd hl (by decide)
  | l :: ls, b :: a2, rest, h1, h2, h3 => by
    simp only [List.isPrefixOf, Bool.and_eq_false_iff] at h3
    simp only [List.cons_append, List.isPrefixOf, Bool.and_eq_false_iff]
    rcases h3 with h3 | h3
    · left; exact h3
    · right
      exact isPrefixOf_append_digit ls a2 rest
        (fun c hc => h1 c (List.mem_cons_of_mem _ hc)) h2 h3

theorem takeWhile_append_all {p : Char → Bool} :
    ∀ (xs ys : List Char), (∀ c ∈ xs, p c = true) →
      (xs ++ ys).takeWhile p = xs ++ ys.takeWhile p
  | [], ys, _ => rfl
  | x :: xs, ys, h => by
    simp only [List.cons_append, List.takeWhile_cons, h x (List.mem_cons_self _ _)]
    rw [takeWhile_append_all xs ys fun c hc => h c (List.mem_cons_of_mem _ hc)]
    simp

theorem dropWhile_append_all {p : Char → Bool} :
    ∀ (xs ys : List Char), (∀ c ∈ xs, p c = true) →
      (xs ++ ys).dropWhile p = ys.dropWhile p
  | [], ys, _ => rfl
  | x :: xs, ys, h => by
    simp only [List.cons_append, List.dropWhile_cons, h x (List.mem_cons_self _ _)]
    exact dropWhile_append_all xs ys fun c hc => h c (List.mem_cons_of_mem _ hc)

theorem takeWhile_stop {p : Char → Bool} (ys : List Char)
    (h : ∀ hd, ys.head? = some hd → p hd = false) : ys.takeWhile p = [] := by
  cases ys with
  | nil => rfl
  | cons c t =>
    rw [List.takeWhile_cons, h c rfl]
    rfl

theorem dropWhile_stop {p : Char → Bool} (ys : List Char)
    (h : ∀ hd, ys.head? = some hd → p hd = false) : ys.dropWhile p = ys := by
  cases ys with
  | nil => rfl
  | cons c t =>
    rw [List.dropWhile_cons, h c rfl]
    rfl

theorem matchPort3_canonical
    (a d1 d2 d3 t2 : List Char)
    (ha : a ≠ []) (haall : ∀ c ∈ a, c.isAlpha = true)
    (hd1 : d1 ≠ []) (hd1all : ∀ c ∈ d1, c.isDigit = true)
    (hd2 : d2 ≠ []) (hd2all : ∀ c ∈ d2, c.isDigit = true)
    (hd3 : d3 ≠ []) (hd3all : ∀ c ∈ d3, c.isDigit = true)
    (ht : ∀ hd, t2.head? = some hd → hd.isDigit = false) :
    matchPort3 (a ++ (d1 ++ ('/' :: (d2 ++ ('/' :: (d3 ++ t2)))))) =
      some (a, d1, d2, d3) := by
  have hstop1 : ∀ hd, (d1 ++ ('/' :: (d2 ++ ('/' :: (d3 ++ t2))))).head? = some hd →
      hd.isAlpha = false := by
    cases d1 with
    | nil => exact absurd rfl hd1
    | cons e d1t =>
      intro hd hhd
      simp only [List.cons_append, List.head?_cons, Option.some.injEq] at hhd
      rw [← hhd]
      exact digit_not_alpha (hd1all e (List.mem_cons_self _ _))
  have ht1 : (a ++ (d1 ++ ('/' :: (d2 ++ ('/' :: (d3 ++ t2)))))).takeWhile Char.isAlpha
      = a := by
    rw [takeWhile_append_all a _ haall, takeWhile_stop _ hstop1, List.append_nil]
  have ht2 : (a ++ (d1 ++ ('/' :: (d2 ++ ('/' :: (d3 ++ t2)))))).dropWhile Char.isAlpha
      = d1 ++ ('/' :: (d2 ++ ('/' :: (d3 ++ t2)))) := by
    rw [dropWhile_append_all a _ haall, dropWhile_stop _ hstop1]
  have hslash : ∀ (z : List Char) hd, (('/' : Char) :: z).head? = some hd →
      hd.isDigit = false := by
    intro z hd hhd
    simp only [List.head?_cons, Option.some.injEq] at hhd
    rw [← hhd]
    decide
  have ht3 : (d1 ++ ('/' :: (d2 ++ ('/' :: (d3 ++ t2))))).takeWhile Char.isDigit = d1 := by
    rw [takeWhile_append_all d1 _ hd1all, takeWhile_stop _ (hslash _), List.append_nil]
  have ht4 : (d1 ++ ('/' :: (d2 ++ ('/' :: (d3 ++ t2))))).dropWhile Char.isDigit =
      '/' :: (d2 ++ ('/' :: (d3 ++ t2))) := by
    rw [dropWhile_append_all d1 _ hd1all, dropWhile_stop _ (hslash _)]
  have ht5 : (d2 ++ ('/' :: (d3 ++ t2))).takeWhile Char.isDigit = d2 := by
    rw [takeWhile_append_all d2 _ hd2all, takeWhile_stop _ (hslash _), List.append_nil]
  have ht6 : (d2 ++ ('/' :: (d3 ++ t2))).dropWhile Char.isDigit = '/' :: (d3 ++ t2) := by
    rw [dropWhile_append_all d2 _ hd2all, dropWhile_stop _ (hslash _)]
  have ht7 : (d3 ++ t2).takeWhile Char.isDigit = d3 := by
    rw [takeWhile_append_all d3 _ hd3all, takeWhile_stop _ ht, List.append_nil]
  rw [matchPort3]
  simp only [ht1, ht2, ht3, ht4, ht5, ht6, ht7]
  rcases a with _ | ⟨a0, a2⟩
  · exact absurd rfl ha
  rcases d1 with _ | ⟨e1, g1⟩
  · exact absurd rfl hd1
  rcases d2 with _ | ⟨e2, g2⟩
  · exact absurd rfl hd2
  rcases d3 with _ | ⟨e3, g3⟩
  · exact absurd rfl hd3
  simp [List.cons_append]

/-- C10: when the input to the port canonicalizer decomposes as letters plus
three slash-separated digit groups followed by any trailing text that does not
extend the last digit group (e.g. a subinterface suffix such as `.100`), the
trailing text is silently discarded: the result is the same as for the input
without the trailing text, because the numeric patterns match a prefix of the
string rather than the whole string. -/
theorem c10_trailing_text_truncated
    (a d1 d2 d3 t : List Char)
    (ha : a ≠ []) (haall : ∀ c ∈ a, c.isAlpha = true)
    (hd1 : d1 ≠ []) (hd1all : ∀ c ∈ d1, c.isDigit = true)
    (hd2 : d2 ≠ []) (hd2all : ∀ c ∈ d2, c.isDigit = true)
    (hd3 : d3 ≠ []) (hd3all : ∀ c ∈ d3, c.isDigit = true)
    (ht : ∀ hd, t.head? = some hd → hd.isDigit = false)
    (hpre : ∀ pr ∈ PREFIX_MAP, pr.1.isPrefixOf a = false) :
    normalize_port (a ++ (d1 ++ ('/' :: (d2 ++ ('/' :: (d3 ++ t)))))) =
      normalize_port (a ++ (d1 ++ ('/' :: (d2 ++ ('/' :: d3))))) := by
  obtain ⟨D3, e, hD3⟩ : ∃ L b, d3 = L ++ [b] := by
    rcases List.eq_nil_or_concat d3 with h0 | ⟨L, b, hLb⟩
    · exact absurd h0 hd3
    · exact ⟨L, b, by rw [hLb, List.concat_eq_append]⟩
  have he_ws : e.isWhitespace = false := by
    refine digit_not_ws (hd3all e ?_)
    rw [hD3]
    simp
  have hhead_ws : ∀ (r : List Char) hd,
      ((a ++ r).head? = some hd) → hd.isWhitespace = false := by
    cases a with
    | nil => exact absurd rfl ha
    | cons a0 a2 =>
      intro r hd hhd
      simp only [List.cons_append, List.head?_cons, Option.some.injEq] at hhd
      rw [← hhd]
      exact alpha_not_ws (haall a0 (List.mem_cons_self _ _))
  have hstrip1 : pyStrip (a ++ (d1 ++ ('/' :: (d2 ++ ('/' :: (d3 ++ t)))))) =
      a ++ (d1 ++ ('/' :: (d2 ++ ('/' :: (d3 ++ pyStripRight t))))) := by
    rw [pyStrip, dropWhile_stop _ (hhead_ws _)]
    have hre : a ++ (d1 ++ ('/' :: (d2 ++ ('/' :: (d3 ++ t))))) =
        ((a ++ (d1 ++ ('/' :: (d2 ++ ('/' :: D3))))) ++ [e]) ++ t := by
      rw [hD3]
      simp
    rw [hre, pyStripRight_snoc_append _ _ _ he_ws, hD3]
    simp
  have hstrip2 : pyStrip (a ++ (d1 ++ ('/' :: (d2 ++ ('/' :: d3))))) =
      a ++ (d1 ++ ('/' :: (d2 ++ ('/' :: d3)))) := by
    rw [pyStrip, dropWhile_stop _ (hhead_ws _)]
    have hre : a ++ (d1 ++ ('/' :: (d2 ++ ('/' :: d3)))) =
        ((a ++ (d1 ++ ('/' :: (d2 ++ ('/' :: D3))))) ++ [e]) ++ [] := by
      rw [hD3]
      simp
    rw [hre, pyStripRight_snoc_append _ _ _ he_ws]
    simp [pyStripRight]
  have hnodig : ∀ pr ∈ PREFIX_MAP, ∀ c ∈ pr.1, c.isDigit = false := by decide
  have hheadR : ∀ (z : List Char) hd,
      (d1 ++ ('/' :: z)).head? = some hd → hd.isDigit = true := by
    cases d1 with
    | nil => exact absurd rfl hd1
    | cons e1 g1 =>
      intro z hd hhd
      simp only [List.cons_append, List.head?_cons, Option.some.injEq] at hhd
      rw [← hhd]
      exact hd1all e1 (List.mem_cons_self _ _)
  have hpr1 : prefixReplace PREFIX_MAP
      (a ++ (d1 ++ ('/' :: (d2 ++ ('/' :: (d3 ++ pyStripRight t)))))) =
      a ++ (d1 ++ ('/' :: (d2 ++ ('/' :: (d3 ++ pyStripRight t))))) :=
    prefixReplace_id _ _ fun pr hp =>
      isPrefixOf_append_digit pr.1 a _ (hnodig pr hp) (hheadR _) (hpre pr hp)
  have hpr2 : prefixReplace PREFIX_MAP
      (a ++ (d1 ++ ('/' :: (d2 ++ ('/' :: d3))))) =
      a ++ (d1 ++ ('/' :: (d2 ++ ('/' :: d3)))) :=
    prefixReplace_id _ _ fun pr hp =>
      isPrefixOf_append_digit pr.1 a _ (hnodig pr hp) (hheadR _) (hpre pr hp)
  have ht2 : ∀ hd, (pyStripRight t).head? = some hd → hd.isDigit = false := by
    cases t with
    | nil => intro hd hhd; simp [pyStripRight] at hhd
    | cons c0 t0 =>
      intro hd hhd
      rcases pyStripRight_head_shape c0 t0 with hsh | ⟨r, hsh⟩
      · rw [hsh] at hhd; simp at hhd
      · rw [hsh] at hhd
        simp only [List.head?_cons, Option.some.injEq] at hhd
        rw [← hhd]
        exact ht c0 rfl
  have hm1 := matchPort3_canonical a d1 d2 d3 (pyStripRight t)
    ha haall hd1 hd1all hd2 hd2all hd3 hd3all ht2
  have hm2 := matchPort3_canonical a d1 d2 d3 []
    ha haall hd1 hd1all hd2 hd2all hd3 hd3all (by intro hd hhd; simp at hhd)
  rw [List.append_nil] at hm2
  rw [normalize_port, normalize_port, hstrip1, hstrip2, hpr1, hpr2, hm1, hm2]

/-- C10 witness: `normalize_port "Gi1/0/1.100"` equals
`normalize_port "Gi1/0/1"`, which is `"Gi1/0/1"`. -/
theorem c10_witness :
    normalize_port "Gi1/0/1.100".toList = normalize_port "Gi1/0/1".toList ∧
    normalize_port "Gi1/0/1".toList = "Gi1/0/1".toList :=
  ⟨c10_trailing_text_truncated "Gi".toList "1".toList "0".toList "1".toList ".100".toList
    (by decide) (by decide) (by decide) (by decide) (by decide) (by decide)
    (by decide) (by decide) (by decide) (by decide),
   by decide⟩

/-! ## C4 -/

theorem isPrefixOf_self_append :
    ∀ (s r : List Char), s.isPrefixOf (s ++ r) = true
  | [], r => by simp [List.isPrefixOf]
  | c :: s, r => by
    simp only [List.cons_append, List.isPrefixOf, Bool.and_eq_true, beq_self_eq_true]
    exact ⟨trivial, isPrefixOf_self_append s r⟩

theorem mtch_lit_exact (s r : List Char) (es : List RE) :
    mtch (.lit s :: es) (s ++ r) =
      (mtch es r).map (fun pr => (s :: pr.1, pr.2)) := by
  rw [mtch, isPrefixOf_self_append]
  simp [List.drop_left]

theorem mtch_plus_exact (p : Char → Bool) (es : List RE)
    (x0 : Char) (xs2 ys : List Char) (cs : List (List Char)) (r : List Char)
    (hall : ∀ c ∈ x0 :: xs2, p c = true)
    (hstop : ∀ hd, ys.head? = some hd → p hd = false)
    (hsucc : mtch es ys = some (cs, r)) :
    mtch (.plus p :: es) ((x0 :: xs2) ++ ys) = some ((x0 :: xs2) :: cs, r) := by
  rw [mtch]
  have hrun : ((x0 :: xs2) ++ ys).takeWhile p = x0 :: xs2 := by
    rw [takeWhile_append_all _ _ hall, takeWhile_stop _ hstop, List.append_nil]
  rw [hrun]
  simp only [List.length_cons]
  rw [greedyDesc]
  rw [show xs2.length + 1 = (x0 :: xs2).length from by simp]
  rw [List.take_left, List.drop_left, hsucc]
  rfl

theorem mtch_plus_overshoot (p : Char → Bool) (es : List RE)
    (x0 c : Char) (xs2 ys : List Char) (cs : List (List Char)) (r : List Char)
    (hall : ∀ x ∈ x0 :: xs2, p x = true) (hc : p c = true)
    (hstop : ∀ hd, ys.head? = some hd → p hd = false)
    (hfail : mtch es ys = none)
    (hsucc : mtch es (c :: ys) = some (cs, r)) :
    mtch (.plus p :: es) ((x0 :: xs2) ++ c :: ys) = some ((x0 :: xs2) :: cs, r) := by
  rw [mtch]
  have hrun : ((x0 :: xs2) ++ c :: ys).takeWhile p = (x0 :: xs2) ++ [c] := by
    rw [takeWhile_append_all _ _ hall, List.takeWhile_cons, hc, takeWhile_stop _ hstop]
    simp
  rw [hrun]
  have hlen : ((x0 :: xs2) ++ [c]).length = xs2.length + 1 + 1 := by simp
  rw [hlen, greedyDesc]
  have htake1 : ((x0 :: xs2) ++ c :: ys).take (xs2.length + 1 + 1) = (x0 :: xs2) ++ [c] := by
    rw [show xs2.length + 1 + 1 = (x0 :: xs2).length + 1 from by simp]
    rw [List.take_append]
    rfl
  have hdrop1 : ((x0 :: xs2) ++ c :: ys).drop (xs2.length + 1 + 1) = ys := by
    rw [show xs2.length + 1 + 1 = (x0 :: xs2).length + 1 from by simp]
    rw [List.drop_append]
    rfl
  rw [htake1, hdrop1, hfail]
  simp only [Option.map_none, Option.none_orElse]
  rw [greedyDesc]
  rw [show xs2.length + 1 = (x0 :: xs2).length from by simp]
  rw [List.take_left, List.drop_left, hsucc]
  rfl

theorem greedyDesc_none (cont : List Char → List Char → Option (List (List Char) × List Char))
    (l : List Char) :
    ∀ k : Nat, (∀ j, 1 ≤ j → j ≤ k → cont (l.take j) (l.drop j) = none) →
      greedyDesc cont l k false = none
  | 0, _ => rfl
  | k + 1, h => by
    rw [greedyDesc, h (k + 1) (by omega) (le_refl _)]
    exact greedyDesc_none cont l k fun j h1 h2 => h j h1 (by omega)

theorem hdr_tail_no_is (Z : List Char) :
    mtch [RE.lit " is ".toList, RE.star anyP, RE.lit ", line protocol is".toList]
      ('i' :: 'n' :: Z) = none := by
  rw [mtch]
  have : (" is ".toList).isPrefixOf ('i' :: 'n' :: Z) = false := by
    simp [List.isPrefixOf]
  rw [this]
  rfl

theorem hdrMatch_lastline_none (Z : List Char) :
    hdrMatch ("Last input ".toList ++ Z) = none := by
  rw [hdrMatch]
  have hm : mtch hdrPat ("Last input ".toList ++ Z) = none := by
    rw [hdrPat]
    have hshape : "Last input ".toList ++ Z =
        'L' :: 'a' :: 's' :: 't' :: ' ' :: ('i' :: 'n' :: 'p' :: 'u' :: 't' :: ' ' :: Z) := rfl
    rw [hshape, mtch]
    have hrun : List.takeWhile nonwsP
        ('L' :: 'a' :: 's' :: 't' :: ' ' :: ('i' :: 'n' :: 'p' :: 'u' :: 't' :: ' ' :: Z)) =
        ['L', 'a', 's', 't'] := by
      rw [List.takeWhile_cons_of_pos (by decide), List.takeWhile_cons_of_pos (by decide),
        List.takeWhile_cons_of_pos (by decide), List.takeWhile_cons_of_pos (by decide),
        List.takeWhile_cons_of_neg (by decide)]
    rw [hrun, show (['L', 'a', 's', 't'] : List Char).length = 4 from rfl]
    apply greedyDesc_none
    intro j h1 h2
    interval_cases j
    · rw [List.drop_succ_cons, List.drop_zero, mtch]
      rw [show (" is ".toList).isPrefixOf
        ('a' :: 's' :: 't' :: ' ' :: ('i' :: 'n' :: 'p' :: 'u' :: 't' :: ' ' :: Z)) = false
        from by simp [List.isPrefixOf]]
      rfl
    · rw [List.drop_succ_cons, List.drop_succ_cons, List.drop_zero, mtch]
      rw [show (" is ".toList).isPrefixOf
        ('s' :: 't' :: ' ' :: ('i' :: 'n' :: 'p' :: 'u' :: 't' :: ' ' :: Z)) = false
        from by simp [List.isPrefixOf]]
      rfl
    · rw [List.drop_succ_cons, List.drop_succ_cons, List.drop_succ_cons, List.drop_zero, mtch]
      rw [show (" is ".toList).isPrefixOf
        ('t' :: ' ' :: ('i' :: 'n' :: 'p' :: 'u' :: 't' :: ' ' :: Z)) = false
        from by simp [List.isPrefixOf]]
      rfl
    · rw [List.drop_succ_cons, List.drop_succ_cons, List.drop_succ_cons, List.drop_succ_cons,
        List.drop_zero, mtch]
      rw [show (" is ".toList).isPrefixOf
        (' ' :: ('i' :: 'n' :: 'p' :: 'u' :: 't' :: ' ' :: Z)) = false
        from by simp [List.isPrefixOf]]
      rfl
  rw [hm]
  rfl

theorem hdrMatch_header (p0 : Char) (P2 : List Char)
    (hPw : ∀ c ∈ p0 :: P2, nonwsP c = true) :
    hdrMatch ((p0 :: P2) ++ " is up, line protocol is up".toList) = some (p0 :: P2) := by
  have hconc : mtch [RE.lit " is ".toList, RE.star anyP, RE.lit ", line protocol is".toList]
      " is up, line protocol is up".toList =
      some ([" is ".toList, "up".toList, ", line protocol is".toList], " up".toList) := by
    rfl
  have hstop : ∀ hd, (" is up, line protocol is up".toList).head? = some hd →
      nonwsP hd = false := by
    intro hd hhd
    simp only [String.toList] at hhd
    simp at hhd
    rw [← hhd]
    decide
  have hm := mtch_plus_exact nonwsP
    [RE.lit " is ".toList, RE.star anyP, RE.lit ", line protocol is".toList]
    p0 P2 " is up, line protocol is up".toList _ _ hPw hstop hconc
  rw [hdrMatch, hdrPat, hm]
  rfl

theorem lastSearch_lastline (x0 y0 : Char) (X2 Y2 : List Char)
    (hXw : ∀ c ∈ x0 :: X2, nonwsP c = true)
    (hYw : ∀ c ∈ y0 :: Y2, nonwsP c = true) :
    lastSearch ("Last input ".toList ++
      ((x0 :: X2) ++ (", output ".toList ++ ((y0 :: Y2) ++ [','])))) =
      some (x0 :: X2, y0 :: Y2) := by
  have hY : mtch [RE.plus nonwsP, RE.lit ",".toList] ((y0 :: Y2) ++ ',' :: []) =
      some ([y0 :: Y2, [',']], []) := by
    refine mtch_plus_overshoot nonwsP _ y0 ',' Y2 [] _ _ hYw (by decide) ?_ rfl rfl
    intro hd hhd
    simp at hhd
  have hOut : mtch [RE.lit ", output ".toList, RE.plus nonwsP, RE.lit ",".toList]
      (", output ".toList ++ ((y0 :: Y2) ++ [','])) =
      some ([", output ".toList, y0 :: Y2, [',']], []) := by
    rw [mtch_lit_exact, show ((y0 :: Y2) ++ [','] : List Char) = (y0 :: Y2) ++ ',' :: []
      from rfl, hY]
    rfl
  have hX : mtch [RE.plus nonwsP, RE.lit ", output ".toList, RE.plus nonwsP, RE.lit ",".toList]
      ((x0 :: X2) ++ (", output ".toList ++ ((y0 :: Y2) ++ [',']))) =
      some ([x0 :: X2, ", output ".toList, y0 :: Y2, [',']], []) := by
    have hshape : (", output ".toList ++ ((y0 :: Y2) ++ [',']) : List Char) =
        ',' :: (' ' :: 'o' :: 'u' :: 't' :: 'p' :: 'u' :: 't' :: ' ' :: ((y0 :: Y2) ++ [','])) :=
      rfl
    rw [hshape]
    refine mtch_plus_overshoot nonwsP _ x0 ',' X2 _ _ _ hXw (by decide) ?_ ?_ ?_
    · intro hd hhd
      simp only [List.head?_cons, Option.some.injEq] at hhd
      rw [← hhd]
      decide
    · rw [mtch]
      rw [show (", output ".toList).isPrefixOf
        (' ' :: 'o' :: 'u' :: 't' :: 'p' :: 'u' :: 't' :: ' ' :: ((y0 :: Y2) ++ [','])) = false
        from by simp [List.isPrefixOf]]
      rfl
    · rw [show (',' :: (' ' :: 'o' :: 'u' :: 't' :: 'p' :: 'u' :: 't' :: ' ' ::
        ((y0 :: Y2) ++ [','])) : List Char) =
        ", output ".toList ++ ((y0 :: Y2) ++ [',']) from rfl, hOut]
  have hfull : mtch lastPat ("Last input ".toList ++
      ((x0 :: X2) ++ (", output ".toList ++ ((y0 :: Y2) ++ [','])))) =
      some (["Last input ".toList, x0 :: X2, ", output ".toList, y0 :: Y2, [',']], []) := by
    rw [lastPat, mtch_lit_exact, hX]
    rfl
  rw [lastSearch]
  have hcons : ("Last input ".toList ++
      ((x0 :: X2) ++ (", output ".toList ++ ((y0 :: Y2) ++ [','])))) =
      'L' :: ('a' :: 's' :: 't' :: ' ' :: 'i' :: 'n' :: 'p' :: 'u' :: 't' :: ' ' ::
        ((x0 :: X2) ++ (", output ".toList ++ ((y0 :: Y2) ++ [',']))))  := rfl
  rw [hcons, searchPat, ← hcons, hfull]
  rfl

theorem parseLastLines_count (now : Int) :
    ∀ (lines : List (List Char)) (cur : Option (List Char)) (res : List TrafficRow),
      parseLastLines now lines cur = .ok res →
      res.length ≤ lines.countP (fun l => (hdrMatch l).isSome) +
        (if cur.isSome then 1 else 0)
  | [], cur, res, h => by
    simp only [parseLastLines, Except.ok.injEq] at h
    rw [← h]
    simp
  | line :: rest, cur, res, h => by
    simp only [parseLastLines] at h
    rw [List.countP_cons]
    cases hh : hdrMatch line with
    | some p =>
      rw [hh] at h
      have ih := parseLastLines_count now rest (some (normalize_port p)) res h
      rw [show (if (some (normalize_port p)).isSome = true then (1 : Nat) else 0) = 1
        from rfl] at ih
      rw [show (if (some p).isSome then (1 : Nat) else 0) = 1 from rfl]
      cases cur with
      | none =>
        rw [show (if (none : Option (List Char)).isSome = true then (1 : Nat) else 0) = 0
          from rfl]
        omega
      | some q =>
        rw [show (if (some q).isSome = true then (1 : Nat) else 0) = 1 from rfl]
        omega
    | none =>
      rw [hh] at h
      rw [show (if (none : Option (List Char)).isSome then (1 : Nat) else 0) = 0
        from rfl]
      cases cur with
      | none =>
        have ih := parseLastLines_count now rest none res h
        rw [show (if (none : Option (List Char)).isSome = true then (1 : Nat) else 0) = 0
          from rfl] at ih
        omega
      | some port =>
        rw [show (if (some port).isSome = true then (1 : Nat) else 0) = 1 from rfl]
        cases hl : lastSearch line with
        | none =>
          rw [hl] at h
          have ih := parseLastLines_count now rest (some port) res h
          rw [show (if (some port).isSome = true then (1 : Nat) else 0) = 1 from rfl] at ih
          omega
        | some xy =>
          rw [hl] at h
          obtain ⟨x, y⟩ := xy
          have h3 : (do
              let dx ← age_to_timedelta x
              let dy ← age_to_timedelta y
              let rows ← parseLastLines now rest none
              Except.ok (({ port := port, last_traffic_seen :=
                match ([dx, dy].filterMap id).filter (fun d => d ≠ 0) with
                | [] => Stamp.never
                | d :: ds => Stamp.time (now - listMin d ds) } : TrafficRow) :: rows)) =
              Except.ok res := h
          cases hdx : age_to_timedelta x with
          | error e =>
            rw [hdx] at h3
            exact absurd (show (Except.error e : Except Unit (List TrafficRow)) =
              Except.ok res from h3) (by simp)
          | ok dx =>
            rw [hdx] at h3
            have h4 : (do
                let dy ← age_to_timedelta y
                let rows ← parseLastLines now rest none
                Except.ok (({ port := port, last_traffic_seen :=
                  match ([dx, dy].filterMap id).filter (fun d => d ≠ 0) with
                  | [] => Stamp.never
                  | d :: ds => Stamp.time (now - listMin d ds) } : TrafficRow) :: rows)) =
                Except.ok res := h3
            cases hdy : age_to_timedelta y with
            | error e =>
              rw [hdy] at h4
              exact absurd (show (Except.error e : Except Unit (List TrafficRow)) =
                Except.ok res from h4) (by simp)
            | ok dy =>
              rw [hdy] at h4
              have h5 : (do
                  let rows ← parseLastLines now rest none
                  Except.ok (({ port := port, last_traffic_seen :=
                    match ([dx, dy].filterMap id).filter (fun d => d ≠ 0) with
                    | [] => Stamp.never
                    | d :: ds => Stamp.time (now - listMin d ds) } : TrafficRow) :: rows)) =
                  Except.ok res := h4
              cases hrec : parseLastLines now rest none with
              | error e =>
                rw [hrec] at h5
                exact absurd (show (Except.error e : Except Unit (List TrafficRow)) =
                  Except.ok res from h5) (by simp)
              | ok rows =>
                rw [hrec] at h5
                have ih := parseLastLines_count now rest none rows hrec
                rw [show (if (none : Option (List Char)).isSome = true then (1 : Nat) else 0)
                  = 0 from rfl] at ih
                have h2 : (({ port := port, last_traffic_seen :=
                    match ([dx, dy].filterMap id).filter (fun d => d ≠ 0) with
                    | [] => Stamp.never
                    | d :: ds => Stamp.time (now - listMin d ds) } : TrafficRow) :: rows)
                    = res := Except.ok.inj h5
                rw [← h2]
                simp only [List.length_cons]
                omega

/-- C4 counterexample: `"00:00:00"` parses to a duration (zero seconds), yet
the emitted observation is `"Never"`: the truthiness filter
`[d for d in (in_d, out_d) if d]` drops a zero duration, so the claim's
"if at least one of X and Y parses to a duration" is too strong. -/
theorem c4_zero_duration_counterexample :
    age_to_timedelta "00:00:00".toList = .ok (some 0) ∧
    parse_last_traffic 1000
      "Gi1 is up, line protocol is up\nLast input 00:00:00, output never,\n".toList =
      .ok [⟨"Gi1".toList, .never⟩] :=
  ⟨rfl, rfl⟩

/-- C4 (amended): for a port-header line followed by a
`Last input <X>, output <Y>,` line whose age tokens both parse, the emitted
observation's timestamp is `now` minus the smallest *nonzero* parsed duration,
and `"Never"` when no nonzero duration was parsed (a zero duration counts as
no observation); the current-port context is cleared after emitting, so any
run of the parser yields at most one observation per header line. -/
theorem c4_traffic_observation_rule_amended :
    (∀ (now : Int) (p0 x0 y0 : Char) (P2 X2 Y2 : List Char) (dx dy : Option Int),
      (∀ c ∈ p0 :: P2, nonwsP c = true) →
      (∀ c ∈ x0 :: X2, nonwsP c = true) →
      (∀ c ∈ y0 :: Y2, nonwsP c = true) →
      age_to_timedelta (x0 :: X2) = .ok dx →
      age_to_timedelta (y0 :: Y2) = .ok dy →
      parseLastLines now
        [(p0 :: P2) ++ " is up, line protocol is up".toList,
         "Last input ".toList ++ ((x0 :: X2) ++ (", output ".toList ++ ((y0 :: Y2) ++ [','])))]
        none =
      .ok [⟨normalize_port (p0 :: P2),
        match ([dx, dy].filterMap id).filter (fun d => d ≠ 0) with
        | [] => Stamp.never
        | d :: ds => Stamp.time (now - listMin d ds)⟩]) ∧
    (∀ (now : Int) (lines : List (List Char)) (cur : Option (List Char))
        (res : List TrafficRow),
      parseLastLines now lines cur = .ok res →
      res.length ≤ lines.countP (fun l => (hdrMatch l).isSome) +
        (if cur.isSome then 1 else 0)) := by
  constructor
  · intro now p0 x0 y0 P2 X2 Y2 dx dy hP hX hY hdx hdy
    simp only [parseLastLines, hdrMatch_header p0 P2 hP, hdrMatch_lastline_none,
      lastSearch_lastline x0 y0 X2 Y2 hX hY, hdx, hdy, Bind.bind, Except.bind]
  · exact parseLastLines_count

/-- C4 witness: header `Gi1 is ...` followed by
`Last input 00:00:08, output 1w2d,` yields the single observation
`now − 8` for port `Gi1`. -/
theorem c4_witness :
    parseLastLines 1000
      ["Gi1".toList ++ " is up, line protocol is up".toList,
       "Last input ".toList ++ ("00:00:08".toList ++
         (", output ".toList ++ ("1w2d".toList ++ [','])))]
      none =
    .ok [⟨normalize_port "Gi1".toList,
      match ([some (8 : Int), some 777600].filterMap id).filter (fun d => d ≠ 0) with
      | [] => Stamp.never
      | d :: ds => Stamp.time (1000 - listMin d ds)⟩] :=
  c4_traffic_observation_rule_amended.1 1000 'G' '0' '1'
    "i1".toList "0:00:08".toList "w2d".toList (some 8) (some 777600)
    (by decide) (by decide) (by decide) rfl rfl
